import Mathlib

/-!
Verification of the wandbot repository's core logic against its specification.

The development shallowly embeds:
* `partial_format` from `src/wandbot/chat/prompts.py` (string-level, over `List Char`),
  together with the pieces of Python's `string.Formatter().parse` and `str.format`
  that it exercises;
* the Slack event handlers from `src/wandbot/apps/slack/__main__.py` as
  trace-producing functions over an explicit environment of external-call results;
* `load_index` from `src/wandbot/utils.py`.

Python strings are modelled as `List Char`; Python `dict.get` results as
`Option`; raised exceptions as `Except`.
-/

/-- Python `str.replace(pat, rep)` restricted to one scan step budget (`fuel`).
Scans left to right; at each position, if `pat` is a (non-empty) prefix it is
replaced and the scan resumes after the replaced occurrence, otherwise one
character is emitted.  `fuel ≥ s.length` makes the budget irrelevant. -/
def pyReplaceF (pat rep : List Char) : Nat → List Char → List Char
  | _, [] => []
  | 0, s => s
  | fuel+1, c :: cs =>
    if pat.isPrefixOf (c :: cs) && !pat.isEmpty then
      rep ++ pyReplaceF pat rep fuel ((c :: cs).drop pat.length)
    else
      c :: pyReplaceF pat rep fuel cs

/-- Python `s.replace(pat, rep)` for non-empty `pat` (every call site in
`partial_format` uses a non-empty pattern; CPython's empty-pattern behaviour
is not modelled and `pyReplaceF` leaves `s` unchanged for `pat = []`). -/
def pyReplace (s pat rep : List Char) : List Char := pyReplaceF pat rep s.length s

/-- Scanner state of Python's `string.Formatter().parse` /
`str.format` markup iterator (CPython `Objects/stringlib/unicode_format.h`). -/
inductive ScanMode where
  | top
  | field (acc : List Char) (inBr : Bool)
  | conv (acc : List Char)
  | afterConv (acc : List Char)
  | spec (acc : List Char) (depth : Nat)
deriving DecidableEq

/-- Errors raised by the modelled parts of `Formatter().parse` and `str.format`.
`keyError` is Python's `KeyError` (missing keyword argument); `indexError` is
the `IndexError` raised for positional / auto-numbered fields when no
positional arguments are given.  `attrError` stands for the attribute/item
access errors raised when a dotted or indexed field name is applied to a
string value; `convError` / `specUnmodelled` mark conversions and non-empty
format specs, which no theorem below exercises. -/
inductive FmtErr where
  | singleRBrace
  | lbraceInField
  | endInField
  | endConv
  | expectedColon
  | unmatchedSpec
  | keyError (key : List Char)
  | indexError
  | attrError
  | convError
  | specUnmodelled
deriving DecidableEq

/-- The field-name extraction of `string.Formatter().parse`: returns the list
of field names (`x[1]` of each parse tuple that has a field), in order of
occurrence, or the `ValueError` the parse raises.  Faithful to CPython's
markup iterator: `{{` / `}}` are escapes inside literal text, a field name
runs to `:`, `!` or `}` (with `[...]` sections scanned to the closing `]`),
a conversion is one character followed by `:` or `}`, and a format spec is
scanned with brace-depth counting but its contents are not recursed into. -/
def scanA : List Char → ScanMode → Except FmtErr (List (List Char))
  | [], .top => .ok []
  | '{' :: '{' :: rest, .top => scanA rest .top
  | '}' :: '}' :: rest, .top => scanA rest .top
  | '{' :: rest, .top => scanA rest (.field [] false)
  | '}' :: _, .top => .error .singleRBrace
  | _ :: rest, .top => scanA rest .top
  | [], .field _ _ => .error .endInField
  | c :: rest, .field acc true => scanA rest (.field (acc ++ [c]) (c != ']'))
  | c :: rest, .field acc false =>
    if c = '{' then .error .lbraceInField
    else if c = '}' then (fun ns => acc :: ns) <$> scanA rest .top
    else if c = ':' then scanA rest (.spec acc 0)
    else if c = '!' then scanA rest (.conv acc)
    else if c = '[' then scanA rest (.field (acc ++ [c]) true)
    else scanA rest (.field (acc ++ [c]) false)
  | [], .conv _ => .error .endConv
  | _ :: rest, .conv acc => scanA rest (.afterConv acc)
  | [], .afterConv _ => .error .endConv
  | c :: rest, .afterConv acc =>
    if c = '}' then (fun ns => acc :: ns) <$> scanA rest .top
    else if c = ':' then scanA rest (.spec acc 0)
    else .error .expectedColon
  | [], .spec _ _ => .error .unmatchedSpec
  | c :: rest, .spec acc d =>
    if c = '{' then scanA rest (.spec acc (d+1))
    else if c = '}' then
      match d with
      | 0 => (fun ns => acc :: ns) <$> scanA rest .top
      | d'+1 => scanA rest (.spec acc d')
    else scanA rest (.spec acc d)

/-- `[x[1] for x in Formatter().parse(s) if x[1] is not None]`. -/
def scanNames (s : List Char) : Except FmtErr (List (List Char)) := scanA s .top

/-- First-occurrence deduplication (models building `set(...)` of the parsed
names; CPython iterates a `str` set in an unspecified hash order, so the
theorems below only use it where the order is irrelevant: templates whose
name sets are prefix-free, or with at most one name). -/
def dedupFirstAux (seen : List (List Char)) : List (List Char) → List (List Char)
  | [] => []
  | x :: xs => if x ∈ seen then dedupFirstAux seen xs else x :: dedupFirstAux (x :: seen) xs

/-- First-occurrence deduplication of the parsed field names. -/
def dedupFirst (l : List (List Char)) : List (List Char) := dedupFirstAux [] l

/-- `"TEMP_PLACEHOLDER_"` as a character list. -/
def tempMark : List Char :=
  ['T','E','M','P','_','P','L','A','C','E','H','O','L','D','E','R','_']

/-- `"TEMP_PLACEHOLDER_" + k`. -/
def pyMarker (k : List Char) : List Char := tempMark ++ k

/-- `"{" + k + "}"`. -/
def phPat (k : List Char) : List Char := '{' :: (k ++ ['}'])

/-- First-match association-list lookup (Python keyword-argument dict). -/
def lookupA (kw : List (List Char × List Char)) (k : List Char) : Option (List Char) :=
  match kw with
  | [] => none
  | (k', v) :: rest => if k' = k then some v else lookupA rest k

/-- The leading key of a compound field name: the part before the first
`.` or `[` (CPython `field_name_split`). -/
def splitFieldKey (n : List Char) : List Char :=
  n.takeWhile (fun c => c != '.' && c != '[')

/-- Whether every character is an ASCII digit (such a key is a positional
index for `str.format`). -/
def isAllDigits (l : List Char) : Bool := l.all Char.isDigit

/-- `str.format` field resolution against keyword arguments only (no
positional arguments are ever passed by `partial_format`):
an empty or all-digits key is positional / auto-numbered and raises
`IndexError`; otherwise the key is looked up among the keyword arguments,
raising `KeyError` when absent; a remaining `.attr` / `[item]` part applied
to a string value raises (modelled as `attrError`). -/
def resolveField (kw : List (List Char × List Char)) (n : List Char) : Except FmtErr (List Char) :=
  let key := splitFieldKey n
  if key = [] then .error .indexError
  else if isAllDigits key then .error .indexError
  else
    match lookupA kw key with
    | none => .error (.keyError key)
    | some v => if key = n then .ok v else .error .attrError

/-- Python conversions on string values: `!s` is the identity; `!r` / `!a`
(which would add quotes) are outside the modelled fragment. -/
def applyConv (c : Char) (v : List Char) : Except FmtErr (List Char) :=
  if c = 's' then .ok v else .error .convError

/-- Scanner state of the modelled `str.format`. -/
inductive FMode where
  | top
  | field (acc : List Char) (inBr : Bool)
  | conv (acc : List Char)
  | afterConv (acc : List Char) (cv : Char)
  | spec0 (acc : List Char) (cv : Option Char)
deriving DecidableEq

/-- Python `s.format(**kw)` for string-valued keyword arguments, fused with
the markup iterator: literal text is copied with `{{` / `}}` collapsing to a
single brace, each field is resolved by `resolveField`.  Only the empty
format spec is modelled (a non-empty spec yields `specUnmodelled`; no theorem
below reaches that case, since `partial_format` escapes every spec-carrying
field before its final `format` call). -/
def fmtA (kw : List (List Char × List Char)) : List Char → FMode → Except FmtErr (List Char)
  | [], .top => .ok []
  | '{' :: '{' :: rest, .top => (fun t => '{' :: t) <$> fmtA kw rest .top
  | '}' :: '}' :: rest, .top => (fun t => '}' :: t) <$> fmtA kw rest .top
  | '{' :: rest, .top => fmtA kw rest (.field [] false)
  | '}' :: _, .top => .error .singleRBrace
  | c :: rest, .top => (fun t => c :: t) <$> fmtA kw rest .top
  | [], .field _ _ => .error .endInField
  | c :: rest, .field acc true => fmtA kw rest (.field (acc ++ [c]) (c != ']'))
  | c :: rest, .field acc false =>
    if c = '{' then .error .lbraceInField
    else if c = '}' then do
      let v ← resolveField kw acc
      (fun t => v ++ t) <$> fmtA kw rest .top
    else if c = ':' then fmtA kw rest (.spec0 acc none)
    else if c = '!' then fmtA kw rest (.conv acc)
    else if c = '[' then fmtA kw rest (.field (acc ++ [c]) true)
    else fmtA kw rest (.field (acc ++ [c]) false)
  | [], .conv _ => .error .endConv
  | c :: rest, .conv acc => fmtA kw rest (.afterConv acc c)
  | [], .afterConv _ _ => .error .endConv
  | c :: rest, .afterConv acc cv =>
    if c = '}' then do
      let v ← resolveField kw acc
      let v' ← applyConv cv v
      (fun t => v' ++ t) <$> fmtA kw rest .top
    else if c = ':' then fmtA kw rest (.spec0 acc (some cv))
    else .error .expectedColon
  | [], .spec0 _ _ => .error .unmatchedSpec
  | c :: rest, .spec0 acc cv =>
    if c = '}' then do
      let v ← resolveField kw acc
      let v' ← (match cv with | none => Except.ok v | some cc => applyConv cc v)
      (fun t => v' ++ t) <$> fmtA kw rest .top
    else .error .specUnmodelled

/-- `str.format` (keyword arguments only). -/
def pyFormat (s : List Char) (kw : List (List Char × List Char)) : Except FmtErr (List Char) :=
  fmtA kw s .top

/-- `partial_format` from `src/wandbot/chat/prompts.py`, line for line:
parse the placeholder names, default unmapped names to their own placeholder
text, replace each `{k}` by `TEMP_PLACEHOLDER_k`, double every remaining
brace, undo the markers, and run `str.format` with the defaulted map. -/
def partial_format (s : List Char) (kwargs : List (List Char × List Char)) :
    Except FmtErr (List Char) := do
  let parsed ← scanNames s
  let place_holders := dedupFirst parsed
  let replacements := place_holders.map (fun k => (k, (lookupA kwargs k).getD (phPat k)))
  let s1 := place_holders.foldl (fun t k => pyReplace t (phPat k) (pyMarker k)) s
  let s2 := pyReplace (pyReplace s1 ['{'] ['{', '{']) ['}'] ['}', '}']
  let s3 := place_holders.foldl (fun t k => pyReplace t (pyMarker k) (phPat k)) s2
  pyFormat s3 replacements

/-! ## The Slack app (`src/wandbot/apps/slack/__main__.py`)

Each handler is embedded as a function from an environment of external-call
results (the Slack SDK and the wandbot API client are external collaborators)
to the ordered list of calls it performs (its *trace*) together with the
exception it lets propagate, if any.  An effect is recorded when the call is
made, whether or not the call then raises.  A caught-and-logged exception
shows up as a `logError` effect with `none` propagated. -/

/-- Python truthiness of an optional string (`None` and `""` are falsy). -/
def pyTruthyStr : Option String → Bool
  | none => false
  | some s => s != ""

/-- Python `x or y` for optional strings, as used in
`initial_message.get("thread_ts", None) or initial_message.get("ts", None)`. -/
def pyOr (a b : Option String) : Option String :=
  if pyTruthyStr a then a else b

/-- A Slack message dict as the handlers read it (`.get` yields `none` for a
missing key; `some ""` models a key present with a falsy value). -/
structure SlackMsg where
  text : Option String
  user : Option String
  thread_ts : Option String
  ts : Option String
deriving DecidableEq

/-- The structured answer returned by `api_client.query`; `model_dump` is the
field list merged into the persisted question-answer record. -/
structure ApiResponse where
  model_dump : List (String × String)
deriving DecidableEq

/-- The response of `api_client.generate_ads`. -/
structure AdsResponse where
  ad_copies : String
deriving DecidableEq

/-- The Slack response of a `say` call; `ts` is the sent message's timestamp
(read as `sent_message["ts"]`). -/
structure SentMsg where
  ts : String
deriving DecidableEq

/-- The parts of the action body the handlers read
(`body["channel"].get("id")`; `body["message"]` is only forwarded to
`get_initial_message`, which the environment models). -/
structure SlackBody where
  channel_id : Option String
deriving DecidableEq

/-- The language-specific configuration profile (`SlackAppEnConfig` /
`SlackAppJaConfig`; the config module is an external collaborator, so its
fields are opaque).  `intro_for u` is `INTRO_MESSAGE.format(user=u)`. -/
structure SlackConfig where
  APPLICATION : String
  bot_language : String
  intro_for : Option String → String
  OUTRO_MESSAGE : String

/-- One external call made by a handler, with the arguments the claims are
about. -/
inductive Effect where
  | ack
  | logInfo
  | getInitialMessage (channel : Option String)
  | getChatHistory (application : String) (thread_id : Option String)
  | sendMessage (text : String) (thread : Option String)
  | apiQuery (question : Option String) (history : List String) (language application : String)
  | reactionsAdd (channel : Option String) (timestamp name : String)
  | createQuestionAnswer (thread_id : Option String) (question_answer_id language : String)
      (fields : List (String × String))
  | generateAds (query : Option String) (action persona : String)
  | sayAds (text : String) (thread : Option String)
  | sayAdcopyBlocks (thread : Option String)
  | sayInitBlock (user : Option String) (thread : Option String)
  | conversationsReplies (channel ts : String) (inclusive : Bool) (limit : Nat)
  | createFeedback (feedback_id question_answer_id : String) (rating : Int)
  | logError
deriving DecidableEq

/-- A propagated Python exception, opaque. -/
abbrev PyExn := String

/-- External-call results for one `docsbot_handler` invocation.  `mrkdwn` is
the `MrkdwnFormatter` pass applied by `send_message`; `format_response` is
`wandbot.apps.utils.format_response` with the config and outro already
applied — both are external collaborators modelled as opaque pure
functions. -/
structure DocsbotEnv where
  ack : Except PyExn Unit
  get_initial_message : Except PyExn SlackMsg
  get_chat_history : Except PyExn (List String)
  query : Except PyExn ApiResponse
  send : String → Option String → Except PyExn SentMsg
  reactions_add : String → Except PyExn Unit
  create_question_answer : Except PyExn Unit
  mrkdwn : String → String
  format_response : ApiResponse → String

/-- `docsbot_handler` (`@app.action("docsbot")`): acknowledge, fetch the
originating message, then — inside a single `try` that starts only after
that fetch — resolve text/user/thread id, fetch chat history, send the
intro when the history is empty, query the API, send the formatted answer,
attach the two reactions, and persist the question-answer record.  Any
exception inside the `try` is logged and discarded; exceptions from `ack`
or `get_initial_message` propagate. -/
def docsbot_handler (cfg : SlackConfig) (env : DocsbotEnv) (body : SlackBody) :
    List Effect × Option PyExn :=
  match env.ack with
  | .error e => ([.ack], some e)
  | .ok _ =>
  match env.get_initial_message with
  | .error e => ([.ack, .logInfo, .getInitialMessage body.channel_id], some e)
  | .ok im =>
  let pre : List Effect := [.ack, .logInfo, .getInitialMessage body.channel_id, .logInfo]
  -- try:
  let query := im.text
  let user := im.user
  let thread_id := pyOr im.thread_ts im.ts
  match env.get_chat_history with
  | .error _ => (pre ++ [.getChatHistory cfg.APPLICATION thread_id, .logError], none)
  | .ok chat_history =>
  let t1 := pre ++ [Effect.getChatHistory cfg.APPLICATION thread_id]
  let introText := env.mrkdwn (cfg.intro_for user)
  let introTrace := if chat_history.isEmpty then [Effect.sendMessage introText thread_id] else []
  match (if chat_history.isEmpty then (env.send introText thread_id).map (fun _ => ()) else .ok ()) with
  | .error _ => (t1 ++ introTrace ++ [.logError], none)
  | .ok _ =>
  match env.query with
  | .error _ =>
    (t1 ++ introTrace ++
      [.apiQuery query chat_history cfg.bot_language cfg.APPLICATION, .logError], none)
  | .ok api_response =>
  let t2 := t1 ++ introTrace ++
    [Effect.apiQuery query chat_history cfg.bot_language cfg.APPLICATION]
  let response := env.format_response api_response
  let answerText := env.mrkdwn response
  match env.send answerText thread_id with
  | .error _ => (t2 ++ [.sendMessage answerText thread_id, .logError], none)
  | .ok sent_message =>
  let t3 := t2 ++ [Effect.sendMessage answerText thread_id]
  match env.reactions_add "thumbsup" with
  | .error _ => (t3 ++ [.reactionsAdd body.channel_id sent_message.ts "thumbsup", .logError], none)
  | .ok _ =>
  let t4 := t3 ++ [Effect.reactionsAdd body.channel_id sent_message.ts "thumbsup"]
  match env.reactions_add "thumbsdown" with
  | .error _ =>
    (t4 ++ [.reactionsAdd body.channel_id sent_message.ts "thumbsdown", .logError], none)
  | .ok _ =>
  let t5 := t4 ++ [Effect.reactionsAdd body.channel_id sent_message.ts "thumbsdown"]
  match env.create_question_answer with
  | .error _ =>
    (t5 ++ [.createQuestionAnswer thread_id sent_message.ts cfg.bot_language
        api_response.model_dump, .logError], none)
  | .ok _ =>
    (t5 ++ [.createQuestionAnswer thread_id sent_message.ts cfg.bot_language
        api_response.model_dump], none)

/-- External-call results for one `adcopy_handler` invocation (the action that
shows the ad-copy button blocks). -/
structure AdcopyMenuEnv where
  ack : Except PyExn Unit
  get_initial_message : Except PyExn SlackMsg
  say : Except PyExn Unit

/-- `adcopy_handler` (`@app.action("adcopy")`): acknowledge, fetch the
originating message, resolve the thread id with `thread_ts or ts`, and post
the ad-copy blocks threaded there.  No `try` guard: every exception
propagates. -/
def adcopy_handler (env : AdcopyMenuEnv) (body : SlackBody) :
    List Effect × Option PyExn :=
  match env.ack with
  | .error e => ([.ack], some e)
  | .ok _ =>
  match env.get_initial_message with
  | .error e => ([.ack, .logInfo, .getInitialMessage body.channel_id], some e)
  | .ok im =>
  let pre : List Effect := [.ack, .logInfo, .getInitialMessage body.channel_id, .logInfo]
  let thread_ts := pyOr im.thread_ts im.ts
  match env.say with
  | .error e => (pre ++ [.sayAdcopyBlocks thread_ts], some e)
  | .ok _ => (pre ++ [.sayAdcopyBlocks thread_ts], none)

/-- External-call results for one `handle_adcopy_action` invocation. -/
structure AdcopyEnv where
  get_initial_message : Except PyExn SlackMsg
  generate_ads : Except PyExn AdsResponse
  say : Except PyExn Unit

/-- `handle_adcopy_action`, the shared body of the four ad-copy variant
actions: fetch the originating message, call `generate_ads` with the fixed
action/persona pair, resolve `thread_ts or ts`, and post the generated
copies threaded there.  No `try` guard: every exception propagates. -/
def handle_adcopy_action (env : AdcopyEnv) (body : SlackBody) (action persona : String) :
    List Effect × Option PyExn :=
  match env.get_initial_message with
  | .error e => ([.logInfo, .getInitialMessage body.channel_id], some e)
  | .ok im =>
  let pre : List Effect := [.logInfo, .getInitialMessage body.channel_id, .logInfo]
  let query := im.text
  match env.generate_ads with
  | .error e => (pre ++ [.generateAds query action persona], some e)
  | .ok api_response =>
  let t1 := pre ++ [Effect.generateAds query action persona]
  let thread_ts := pyOr im.thread_ts im.ts
  match env.say with
  | .error e => (t1 ++ [.sayAds api_response.ad_copies thread_ts], some e)
  | .ok _ => (t1 ++ [.sayAds api_response.ad_copies thread_ts], none)

/-- `parse_reaction` from `src/wandbot/apps/slack/__main__.py`. -/
def parse_reaction (reaction : String) : Int :=
  if reaction = "+1" then 1
  else if reaction = "-1" then -1
  else 0

/-- The response of `conversations_replies` as the reaction handler reads it:
an optional `messages` list. -/
structure Replies where
  messages : Option (List SlackMsg)
deriving DecidableEq

/-- A `reaction_added` event (`event["item"]["channel"]`, `event["item"]["ts"]`,
`event["reaction"]`, `event["event_ts"]` are all read unconditionally). -/
structure ReactionEvent where
  channel : String
  ts : String
  reaction : String
  event_ts : String
deriving DecidableEq

/-- External-call results for one `handle_reaction_added` invocation. -/
structure ReactionEnv where
  conversations_replies : Except PyExn Replies
  create_feedback : Except PyExn Unit

/-- `handle_reaction_added` (`@app.event("reaction_added")`): look up the
reacted message with a single-message inclusive `conversations_replies`
call; when a non-empty message list comes back and its first message has a
truthy `thread_ts`, submit one feedback record with the parsed rating,
keyed by the reaction's own `event_ts` and the reacted message's `ts`.
Otherwise do nothing.  No `try` guard: every exception propagates. -/
def handle_reaction_added (env : ReactionEnv) (event : ReactionEvent) :
    List Effect × Option PyExn :=
  let t0 : List Effect := [.conversationsReplies event.channel event.ts true 1]
  match env.conversations_replies with
  | .error e => (t0, some e)
  | .ok conversation =>
  match conversation.messages with
  | none => (t0, none)
  | some msgs =>
  match msgs with
  | [] => (t0, none)
  | m0 :: _ =>
  if pyTruthyStr m0.thread_ts then
    let rating := parse_reaction event.reaction
    match env.create_feedback with
    | .error e => (t0 ++ [.createFeedback event.event_ts event.ts rating], some e)
    | .ok _ => (t0 ++ [.createFeedback event.event_ts event.ts rating], none)
  else (t0, none)

/-! ## `load_index` (`src/wandbot/utils.py`) -/

/-- The calls `load_index` makes. -/
inductive IdxEffect where
  | loadAttempt
  | buildIndex
  | persistDir (dir : String)
deriving DecidableEq

/-- `load_index(nodes, service_context, storage_context, persist_dir)`:
try `load_index_from_storage(storage_context)`; on any exception, build a
`VectorStoreIndex` from the provided nodes and persist it to `persist_dir`;
return the loaded or built index.  `load` is the external
`load_index_from_storage` result, `build` the external `VectorStoreIndex`
constructor applied to the nodes (either may raise). -/
def load_index {Index Nodes : Type} (nodes : Nodes)
    (load : Except PyExn Index) (build : Nodes → Except PyExn Index)
    (persist : Except PyExn Unit) (persist_dir : String) :
    List IdxEffect × Except PyExn Index :=
  match load with
  | .ok index => ([.loadAttempt], .ok index)
  | .error _ =>
    match build nodes with
    | .error e => ([.loadAttempt, .buildIndex], .error e)
    | .ok index =>
      match persist with
      | .error e => ([.loadAttempt, .buildIndex, .persistDir persist_dir], .error e)
      | .ok _ => ([.loadAttempt, .buildIndex, .persistDir persist_dir], .ok index)

/-! ## A well-behaved template fragment

The universally quantified spec claims about `partial_format` fail on the
code as stated (see the counterexamples below).  The amended claims are
proved over templates generated from literal runs, escaped braces and simple
named placeholders, subject to the side conditions that the counterexamples
show to be necessary.  The fragment is a *template syntax*: `renderG`
produces the actual template string handed to `partial_format`. -/

/-- A template token: a literal run (no braces), an escaped brace pair
(`{{` when `opening`, else `}}`), a placeholder `{n}`, or — only as an
internal state of the proofs, never in a well-formed template — a masked
placeholder `TEMP_PLACEHOLDER_n`. -/
inductive GTok where
  | run (r : List Char)
  | esc (opening : Bool)
  | ph (n : List Char)
  | mrk (n : List Char)
deriving DecidableEq

/-- Source text of one token. -/
def gtokStr : GTok → List Char
  | .run r => r
  | .esc true => ['{', '{']
  | .esc false => ['}', '}']
  | .ph n => phPat n
  | .mrk n => pyMarker n

/-- Source text of a token sequence: the template string. -/
def renderG : List GTok → List Char
  | [] => []
  | t :: ts => gtokStr t ++ renderG ts

/-- Text of one token after `partial_format`'s brace-doubling pass
(escaped brace pairs have become quadruples; runs are brace-free and
markers contain no braces, so both are untouched). -/
def gtokStrE : GTok → List Char
  | .run r => r
  | .esc true => ['{', '{', '{', '{']
  | .esc false => ['}', '}', '}', '}']
  | .ph n => phPat n
  | .mrk n => pyMarker n

/-- Text of a token sequence after the brace-doubling pass. -/
def renderE : List GTok → List Char
  | [] => []
  | t :: ts => gtokStrE t ++ renderE ts

/-- Expected `partial_format` output for one token: supplied placeholders
are replaced by their values, unsupplied ones stay as `{n}`, and escaped
braces come out exactly as they went in. -/
def gtokOut (kw : List (List Char × List Char)) : GTok → List Char
  | .run r => r
  | .esc true => ['{', '{']
  | .esc false => ['}', '}']
  | .ph n => match lookupA kw n with | some v => v | none => phPat n
  | .mrk n => pyMarker n

/-- Expected `partial_format` output of a token sequence. -/
def renderOut (kw : List (List Char × List Char)) : List GTok → List Char
  | [] => []
  | t :: ts => gtokOut kw t ++ renderOut kw ts

/-- The placeholder names of a token sequence, in order, with duplicates. -/
def namesOf : List GTok → List (List Char)
  | [] => []
  | .ph n :: ts => n :: namesOf ts
  | _ :: ts => namesOf ts

/-- No brace characters. -/
def bf (l : List Char) : Bool := l.all (fun c => c != '{' && c != '}')

/-- Characters allowed in a simple placeholder name: anything except the
characters that delimit a field for `Formatter().parse` / `str.format`
(`{`, `}`, `:`, `!`) or introduce compound field access (`.`, `[`). -/
def nameChar (c : Char) : Bool :=
  c != '{' && c != '}' && c != ':' && c != '!' && c != '.' && c != '['

/-- A simple keyword-style placeholder name: non-empty, made of plain name
characters, and not all digits (an all-digit name is a positional index for
`str.format`). -/
def validName (n : List Char) : Bool :=
  !n.isEmpty && n.all nameChar && !isAllDigits n

/-- Does `pat` occur as a contiguous substring? -/
def hasSub (pat s : List Char) : Bool := s.tails.any (fun t => pat.isPrefixOf t)

/-- `TEMP_PLACEHOLDER_` does not occur in `l`. -/
def noMarker (l : List Char) : Bool := !hasSub tempMark l

/-- No non-empty suffix of `l` is a prefix of `TEMP_PLACEHOLDER_` (that is,
`l` does not end with `T`, `TE`, `TEM`, ...).  Without this, the marker text
introduced for a name ending this way can merge with following text into a
spurious occurrence of another placeholder's marker, which the restore pass
of `partial_format` then mangles (e.g. the template
`"{a}{TEM}P_PLACEHOLDER_a"` comes out as `"{a}TEMP_PLACEHOLDER_{a}"`). -/
def noMarkTail (l : List Char) : Bool :=
  (List.range (tempMark.length + 1)).all
    (fun j => j = 0 || !(tempMark.take j).isSuffixOf l)

/-- Per-token well-formedness: runs are non-empty, brace-free and free of
the marker text; placeholder names are valid and free of the marker text;
masked tokens never occur in a source template. -/
def tokOkB : GTok → Bool
  | .run r => !r.isEmpty && bf r && noMarker r
  | .esc _ => true
  | .ph n => validName n && noMarker n && noMarkTail n
  | .mrk _ => false

/-- No two adjacent literal runs (the canonical token form of a string). -/
def normalB : List GTok → Bool
  | .run _ :: .run _ :: _ => false
  | _ :: ts => normalB ts
  | [] => true

/-- No name is a prefix of another (distinct) name of the set — under this
condition the replacement loops of `partial_format` are insensitive to the
unspecified `set` iteration order. -/
def prefixFreeB (ns : List (List Char)) : Bool :=
  ns.all (fun n => ns.all (fun m => n = m || (!n.isPrefixOf m && !m.isPrefixOf n)))

/-- Do the tokens begin by spelling `k` out of literal runs followed
immediately by an escaped closing brace pair?  (That is the one way the
replace pattern `{k}` can match text that is not the placeholder `{k}`:
right after the second brace of an escaped `{{`.) -/
def spellsEsc : List Char → List GTok → Bool
  | k, .run r :: ts => r.isPrefixOf k && spellsEsc (k.drop r.length) ts
  | k, .esc false :: _ => k.isEmpty
  | _, _ => false

/-- Name `k` never collides with escaped-brace-enclosed literal text:
no `{{` is followed by literal runs spelling exactly `k` and then `}}`.
(The template `"{a} {{a}}"` violates this for `k = "a"` and is mangled by
`partial_format` — see `partial_format_esc_collision`.) -/
def escCollFree (k : List Char) : List GTok → Bool
  | [] => true
  | .esc true :: ts => !spellsEsc k ts && escCollFree k ts
  | _ :: ts => escCollFree k ts

/-- A well-behaved template: every token is well-formed, runs are in
canonical form, the name set is prefix-free, and no name collides with
escaped literal text. -/
def wfTpl (ts : List GTok) : Bool :=
  ts.all tokOkB && normalB ts && prefixFreeB (namesOf ts) &&
    (namesOf ts).all (fun k => escCollFree k ts)

/-- Mask the placeholders whose names are in `ks` (proof state of the first
replacement loop of `partial_format`). -/
def maskTok (ks : List (List Char)) : GTok → GTok
  | .ph n => if n ∈ ks then .mrk n else .ph n
  | t => t

/-- Unmask the masked placeholders whose names are in `ks` (proof state of
the second replacement loop of `partial_format`). -/
def unmaskTok (ks : List (List Char)) : GTok → GTok
  | .mrk n => if n ∈ ks then .ph n else .mrk n
  | t => t

/-- Substitute the supplied placeholders by their values (the token form of
`partial_format`'s output, used for the round-trip claim). -/
def substTok (kw : List (List Char × List Char)) : GTok → GTok
  | .ph n => match lookupA kw n with | some v => .run v | none => .ph n
  | t => t

/-- The head token, if any, is not a literal run. -/
def headNotRun : List GTok → Bool
  | .run _ :: _ => false
  | _ => true

/-- The text of one token (its run or its name) is brace-free. -/
def tokBF : GTok → Bool
  | .run r => bf r
  | .esc _ => true
  | .ph n => bf n
  | .mrk n => bf n

/-- All texts of the tokens (runs and names) are brace-free. -/
def allBF (ts : List GTok) : Bool := ts.all tokBF

/-- Whether a token is a literal run. -/
def isRunB : GTok → Bool
  | .run _ => true
  | _ => false

/-- The text of one token does not contain the marker text. -/
def tokNM : GTok → Bool
  | .run r => noMarker r
  | .esc _ => true
  | .ph n => noMarker n
  | .mrk n => noMarker n

/-- No run and no name contains the marker text. -/
def allNoMarker (ts : List GTok) : Bool := ts.all tokNM

/-- What the markup scanner needs of a token: runs are brace-free and
placeholder names are non-empty strings of plain name characters.  (Weaker
than `tokOkB`; it also holds of the output tokens of a substitution whose
values are brace-free.) -/
def tokScanOk : GTok → Bool
  | .run r => bf r
  | .esc _ => true
  | .ph n => !n.isEmpty && n.all nameChar
  | .mrk _ => false

/-- Trace selector: feedback submissions. -/
def isFeedback : Effect → Bool
  | .createFeedback _ _ _ => true
  | _ => false

/-- The feedback submissions of a trace. -/
def feedbackEffects (tr : List Effect) : List Effect := tr.filter isFeedback

/-- Trace selector: `send_message` sends. -/
def isSend : Effect → Bool
  | .sendMessage _ _ => true
  | _ => false

/-- The `send_message` sends of a trace. -/
def sendEffects (tr : List Effect) : List Effect := tr.filter isSend

/-- Trace selector: chat-history fetches. -/
def isHistoryFetch : Effect → Bool
  | .getChatHistory _ _ => true
  | _ => false

/-- The chat-history fetches of a trace. -/
def historyFetches (tr : List Effect) : List Effect := tr.filter isHistoryFetch

/-- Trace selector: ad-copy sends. -/
def isAdSay : Effect → Bool
  | .sayAds _ _ => true
  | _ => false

/-- The ad-copy sends of a trace. -/
def adSayEffects (tr : List Effect) : List Effect := tr.filter isAdSay

/-- Trace selector: ad-copy menu-block sends. -/
def isBlockSay : Effect → Bool
  | .sayAdcopyBlocks _ => true
  | _ => false

/-- The ad-copy menu-block sends of a trace. -/
def blockSayEffects (tr : List Effect) : List Effect := tr.filter isBlockSay

/-! ## Claim theorems: the Slack handlers and `load_index` -/


/-- C5: `parse_reaction` is a total function on strings: it returns 1 for the
exact string `"+1"`, -1 for the exact string `"-1"`, and 0 for every other
string (including the empty string, unicode emoji names and `"+1 "`), and its
result is always one of -1, 0, 1.  (It is a total Lean function, so it never
raises.) -/
theorem parse_reaction_spec (s : String) :
    parse_reaction "+1" = 1 ∧ parse_reaction "-1" = -1 ∧
    (s ≠ "+1" → s ≠ "-1" → parse_reaction s = 0) ∧
    (parse_reaction s = -1 ∨ parse_reaction s = 0 ∨ parse_reaction s = 1) := by
  refine ⟨rfl, rfl, fun h1 h2 => by simp [parse_reaction, h1, h2], ?_⟩
  by_cases h1 : s = "+1" <;> by_cases h2 : s = "-1" <;> simp [parse_reaction, h1, h2]

theorem parse_reaction_spec_witness :
    parse_reaction "" = 0 ∧ parse_reaction "+1 " = 0 ∧ parse_reaction "thumbsup" = 0 :=
  ⟨(parse_reaction_spec "").2.2.1 (by decide) (by decide),
   (parse_reaction_spec "+1 ").2.2.1 (by decide) (by decide),
   (parse_reaction_spec "thumbsup").2.2.1 (by decide) (by decide)⟩

/-- C8: `load_index` first attempts to load a previously built index from
storage; on a successful load it returns the loaded index, builds nothing and
persists nothing; on any failure of the load it builds a new index from the
provided node set, persists it to the given persist directory, and returns
it. -/
theorem load_index_spec {Index Nodes : Type} (nodes : Nodes)
    (load : Except PyExn Index) (build : Nodes → Except PyExn Index)
    (persist : Except PyExn Unit) (dir : String) :
    (∀ i, load = .ok i →
      load_index nodes load build persist dir = ([.loadAttempt], .ok i)) ∧
    (∀ e b, load = .error e → build nodes = .ok b → persist = .ok () →
      load_index nodes load build persist dir =
        ([.loadAttempt, .buildIndex, .persistDir dir], .ok b)) := by
  constructor
  · intro i h; simp [load_index, h]
  · intro e b h1 h2 h3; simp [load_index, h1, h2, h3]

theorem load_index_spec_witness :
    @load_index Nat Nat 7 (.ok 1) (fun _ => .ok 2) (.ok ()) "d" =
        ([.loadAttempt], .ok 1) ∧
    @load_index Nat Nat 7 (.error "gone") (fun _ => .ok 2) (.ok ()) "d" =
        ([.loadAttempt, .buildIndex, .persistDir "d"], .ok 2) :=
  ⟨(load_index_spec 7 (.ok 1) (fun _ => .ok 2) (.ok ()) "d").1 1 rfl,
   (load_index_spec 7 (.error "gone") (fun _ => .ok 2) (.ok ()) "d").2 "gone" 2 rfl rfl rfl⟩

/-- C4: for a reaction-added event on message `M`: when the single-message
thread lookup yields a first message with a truthy `thread_ts`, exactly one
feedback record is submitted, with the fixed reaction-to-rating policy,
`question_answer_id = M` and `feedback_id` the reaction event's own
timestamp; when no thread context is resolvable (no messages, or a first
message without a truthy `thread_ts`), no feedback record is submitted and
the reaction is silently ignored. -/
theorem handle_reaction_added_spec (env : ReactionEnv) (event : ReactionEvent) (conv : Replies)
    (h : env.conversations_replies = .ok conv) :
    (∀ m0 rest, conv.messages = some (m0 :: rest) → pyTruthyStr m0.thread_ts = true →
      feedbackEffects (handle_reaction_added env event).1 =
        [.createFeedback event.event_ts event.ts (parse_reaction event.reaction)]) ∧
    ((∀ m0 rest, conv.messages = some (m0 :: rest) → pyTruthyStr m0.thread_ts = false) →
      feedbackEffects (handle_reaction_added env event).1 = [] ∧
      (handle_reaction_added env event).2 = none) := by
  constructor
  · intro m0 rest hm ht
    cases hcf : env.create_feedback <;>
      simp [handle_reaction_added, h, hm, ht, hcf, feedbackEffects, isFeedback]
  · intro hall
    match hm : conv.messages with
    | none => simp [handle_reaction_added, h, hm, feedbackEffects, isFeedback]
    | some [] => simp [handle_reaction_added, h, hm, feedbackEffects, isFeedback]
    | some (m0 :: rest) =>
      have := hall m0 rest hm
      simp [handle_reaction_added, h, hm, this, feedbackEffects, isFeedback]

theorem handle_reaction_added_spec_witness :
    feedbackEffects (handle_reaction_added
        ⟨.ok ⟨some [⟨none, none, some "T1", some "T3"⟩]⟩, .ok ()⟩
        ⟨"C", "T3", "+1", "E9"⟩).1 = [.createFeedback "E9" "T3" 1] ∧
    feedbackEffects (handle_reaction_added
        ⟨.ok ⟨some [⟨none, none, none, some "T3"⟩]⟩, .ok ()⟩
        ⟨"C", "T3", "+1", "E9"⟩).1 = [] := by
  constructor
  · exact (handle_reaction_added_spec ⟨.ok ⟨some [⟨none, none, some "T1", some "T3"⟩]⟩, .ok ()⟩
      ⟨"C", "T3", "+1", "E9"⟩ ⟨some [⟨none, none, some "T1", some "T3"⟩]⟩ rfl).1
      ⟨none, none, some "T1", some "T3"⟩ [] rfl rfl
  · exact ((handle_reaction_added_spec ⟨.ok ⟨some [⟨none, none, none, some "T3"⟩]⟩, .ok ()⟩
      ⟨"C", "T3", "+1", "E9"⟩ ⟨some [⟨none, none, none, some "T3"⟩]⟩ rfl).2
      (fun m0 rest hm => by injection hm with h'; injection h' with h''; rw [← h'']; rfl)).1

/-- C1 counterexample: `partial_format` does *not* protect every template
from missing-key failures: on the template `"{a.b}"` with no substitutions
(a compound field name, which `Formatter().parse` accepts), the final
`format` call raises `KeyError('a')` instead of leaving the placeholder in
place. -/
theorem partial_format_missing_key_cex :
    partial_format ['{', 'a', '.', 'b', '}'] [] = .error (.keyError ['a']) := by rfl

/-- C9 counterexample: for the template `"{a:>10}"` with `a` supplied, the
placeholder carries a format spec, so the replacement loop misses it and it
is escaped rather than substituted; re-parsing the output yields the name
`"a"` even though `"a"` was supplied (the claimed result is the empty name
set). -/
theorem partial_format_roundtrip_cex :
    partial_format ['{', 'a', ':', '>', '1', '0', '}'] [(['a'], ['X'])] =
        .ok ['{', 'a', ':', '>', '1', '0', '}'] ∧
    (scanNames ['{', 'a', ':', '>', '1', '0', '}']).map dedupFirst = .ok [['a']] ∧
    lookupA [(['a'], ['X'])] ['a'] = some ['X'] :=
  ⟨rfl, rfl, rfl⟩

/-- C2 counterexample: `handle_adcopy_action` (the shared body of the ad-copy
generation actions) has no exception guard at all: when `generate_ads`
raises, the exception propagates out of the handler. -/
theorem adcopy_exception_escapes :
    (handle_adcopy_action
        ⟨.ok ⟨some "q", some "u", none, some "T1"⟩, .error "boom", .ok ()⟩
        ⟨some "C"⟩ "awareness" "executive").2 = some "boom" := by rfl


/-- C2 amended: only the primary docsbot handler guards its step sequence,
and the guard covers only the steps after the initial-message fetch: whenever
`ack` and `get_initial_message` succeed, no exception propagates out of
`docsbot_handler` (anything raised inside the `try` is logged and
discarded); the ad-copy and reaction handlers have no guard and can let
exceptions propagate. -/
theorem exception_guard_amended (cfg : SlackConfig) (env : DocsbotEnv) (body : SlackBody)
    (im : SlackMsg) (hack : env.ack = .ok ()) (him : env.get_initial_message = .ok im) :
    (docsbot_handler cfg env body).2 = none ∧
    (∃ env2 body2 a p, (handle_adcopy_action env2 body2 a p).2 ≠ none) ∧
    (∃ env3 ev, (handle_reaction_added env3 ev).2 ≠ none) := by
  refine ⟨?_, ⟨⟨.ok ⟨some "q", some "u", none, some "T1"⟩, .error "boom", .ok ()⟩,
      ⟨some "C"⟩, "awareness", "executive", by decide⟩,
    ⟨⟨.error "boom", .ok ()⟩, ⟨"C", "T3", "+1", "E9"⟩, by decide⟩⟩
  simp only [docsbot_handler, hack, him]
  repeat' split
  all_goals rfl

/-- Witness for C2 amended at a concrete environment in which every call
inside the `try` fails. -/
theorem exception_guard_amended_witness :
    (docsbot_handler ⟨"app", "en", fun _ => "hi", "bye"⟩
        ⟨.ok (), .ok ⟨some "Q", some "U", none, some "T2"⟩, .error "down", .error "down",
          fun _ _ => .error "down", fun _ => .error "down", .error "down", id, fun _ => "R"⟩
        ⟨some "C"⟩).2 = none :=
  (exception_guard_amended ⟨"app", "en", fun _ => "hi", "bye"⟩
    ⟨.ok (), .ok ⟨some "Q", some "U", none, some "T2"⟩, .error "down", .error "down",
      fun _ _ => .error "down", fun _ => .error "down", .error "down", id, fun _ => "R"⟩
    ⟨some "C"⟩ ⟨some "Q", some "U", none, some "T2"⟩ rfl rfl).1

/-- C3: for a docsbot action whose originating message has text `q`, user
`u`, timestamp `t2`, no `thread_ts`, and whose fetched chat history is
empty, the handler performs, in this order: fetch the chat history for
thread id `t2`, send the intro message, query the API with `q` and the
(empty) history, send the formatted answer threaded to `t2`, attach exactly
the two reactions to the sent answer message, and persist a question-answer
record with `thread_id = t2` and `question_answer_id` the sent answer
message's timestamp, merging in every field of the structured API
response. -/
theorem docsbot_happy_sequence (cfg : SlackConfig) (env : DocsbotEnv) (body : SlackBody)
    (q u t2 : String) (resp : ApiResponse) (sent1 sent2 : SentMsg)
    (hack : env.ack = .ok ())
    (him : env.get_initial_message = .ok ⟨some q, some u, none, some t2⟩)
    (hh : env.get_chat_history = .ok [])
    (hq : env.query = .ok resp)
    (hs1 : env.send (env.mrkdwn (cfg.intro_for (some u))) (some t2) = .ok sent1)
    (hs2 : env.send (env.mrkdwn (env.format_response resp)) (some t2) = .ok sent2)
    (hr : ∀ n, env.reactions_add n = .ok ())
    (hc : env.create_question_answer = .ok ()) :
    docsbot_handler cfg env body =
      ([.ack, .logInfo, .getInitialMessage body.channel_id, .logInfo,
        .getChatHistory cfg.APPLICATION (some t2),
        .sendMessage (env.mrkdwn (cfg.intro_for (some u))) (some t2),
        .apiQuery (some q) [] cfg.bot_language cfg.APPLICATION,
        .sendMessage (env.mrkdwn (env.format_response resp)) (some t2),
        .reactionsAdd body.channel_id sent2.ts "thumbsup",
        .reactionsAdd body.channel_id sent2.ts "thumbsdown",
        .createQuestionAnswer (some t2) sent2.ts cfg.bot_language resp.model_dump], none) := by
  simp [docsbot_handler, hack, him, hh, hq, hs1, hs2, hr "thumbsup", hr "thumbsdown", hc,
    pyOr, pyTruthyStr, Except.map]

/-- Witness for C3 at the spec's concrete scenario. -/
theorem docsbot_happy_sequence_witness :
    docsbot_handler ⟨"app", "en", fun _ => "hi", "bye"⟩
      ⟨.ok (), .ok ⟨some "How do I log a metric?", some "U2", none, some "T2"⟩, .ok [],
        .ok ⟨[("answer", "A")]⟩, fun _ _ => .ok ⟨"TS9"⟩, fun _ => .ok (), .ok (), id,
        fun _ => "R"⟩
      ⟨some "C"⟩ =
      ([.ack, .logInfo, .getInitialMessage (some "C"), .logInfo,
        .getChatHistory "app" (some "T2"),
        .sendMessage "hi" (some "T2"),
        .apiQuery (some "How do I log a metric?") [] "en" "app",
        .sendMessage "R" (some "T2"),
        .reactionsAdd (some "C") "TS9" "thumbsup",
        .reactionsAdd (some "C") "TS9" "thumbsdown",
        .createQuestionAnswer (some "T2") "TS9" "en" [("answer", "A")]], none) :=
  docsbot_happy_sequence ⟨"app", "en", fun _ => "hi", "bye"⟩
    ⟨.ok (), .ok ⟨some "How do I log a metric?", some "U2", none, some "T2"⟩, .ok [],
      .ok ⟨[("answer", "A")]⟩, fun _ _ => .ok ⟨"TS9"⟩, fun _ => .ok (), .ok (), id,
      fun _ => "R"⟩
    ⟨some "C"⟩ "How do I log a metric?" "U2" "T2" ⟨[("answer", "A")]⟩ ⟨"TS9"⟩ ⟨"TS9"⟩
    rfl rfl rfl rfl rfl rfl (fun _ => rfl) rfl

/-- C7: in a docsbot invocation, the `send_message` sends of the trace are
exactly: the intro message (sent once, before the answer) when the fetched
chat history is empty, and then the answer; when the history is non-empty,
the intro is never sent. -/
theorem intro_iff_empty_history (cfg : SlackConfig) (env : DocsbotEnv) (body : SlackBody)
    (im : SlackMsg) (hist : List String) (resp : ApiResponse)
    (sentVal : String → Option String → SentMsg)
    (hack : env.ack = .ok ())
    (him : env.get_initial_message = .ok im)
    (hh : env.get_chat_history = .ok hist)
    (hq : env.query = .ok resp)
    (hs : ∀ t th, env.send t th = .ok (sentVal t th)) :
    sendEffects (docsbot_handler cfg env body).1 =
      (if hist.isEmpty then
        [Effect.sendMessage (env.mrkdwn (cfg.intro_for im.user)) (pyOr im.thread_ts im.ts)]
      else []) ++
        [Effect.sendMessage (env.mrkdwn (env.format_response resp)) (pyOr im.thread_ts im.ts)] := by
  simp only [docsbot_handler, hack, him, hh, hq, hs]
  cases he : hist.isEmpty <;>
    cases hr1 : env.reactions_add "thumbsup" <;>
      cases hr2 : env.reactions_add "thumbsdown" <;>
        cases hc : env.create_question_answer <;>
          simp [he, sendEffects, isSend, List.filter_append, Except.map, hr1, hr2, hc]

/-- Witness for C7 with a non-empty history: only the answer is sent. -/
theorem intro_iff_empty_history_witness :
    sendEffects (docsbot_handler ⟨"app", "en", fun _ => "hi", "bye"⟩
      ⟨.ok (), .ok ⟨some "Q", some "U", none, some "T2"⟩, .ok ["old"],
        .ok ⟨[]⟩, fun _ _ => .ok ⟨"TS9"⟩, fun _ => .ok (), .ok (), id, fun _ => "R"⟩
      ⟨some "C"⟩).1 = [Effect.sendMessage "R" (some "T2")] := by
  have h := intro_iff_empty_history ⟨"app", "en", fun _ => "hi", "bye"⟩
    ⟨.ok (), .ok ⟨some "Q", some "U", none, some "T2"⟩, .ok ["old"],
      .ok ⟨[]⟩, fun _ _ => .ok ⟨"TS9"⟩, fun _ => .ok (), .ok (), id, fun _ => "R"⟩
    ⟨some "C"⟩ ⟨some "Q", some "U", none, some "T2"⟩ ["old"] ⟨[]⟩ (fun _ _ => ⟨"TS9"⟩)
    rfl rfl rfl rfl (fun _ _ => rfl)
  simpa using h

/-- C6: thread-id resolution in `docsbot_handler` and
`handle_adcopy_action`: when the originating message has `thread_ts` set (a
non-empty value), that value is used as the conversation thread id; when it
has only `ts`, the `ts` value is used. -/
theorem thread_id_resolution (cfg : SlackConfig) (env : DocsbotEnv) (env2 : AdcopyEnv)
    (body : SlackBody) (im : SlackMsg) (v a p : String) (ads : AdsResponse)
    (hack : env.ack = .ok ())
    (him : env.get_initial_message = .ok im)
    (him2 : env2.get_initial_message = .ok im)
    (hga : env2.generate_ads = .ok ads) :
    (im.thread_ts = some v → v ≠ "" →
      historyFetches (docsbot_handler cfg env body).1 =
        [.getChatHistory cfg.APPLICATION (some v)] ∧
      adSayEffects (handle_adcopy_action env2 body a p).1 = [.sayAds ads.ad_copies (some v)]) ∧
    (im.thread_ts = none →
      historyFetches (docsbot_handler cfg env body).1 =
        [.getChatHistory cfg.APPLICATION im.ts] ∧
      adSayEffects (handle_adcopy_action env2 body a p).1 = [.sayAds ads.ad_copies im.ts]) := by
  have hd : ∀ th, pyOr im.thread_ts im.ts = th →
      historyFetches (docsbot_handler cfg env body).1 = [.getChatHistory cfg.APPLICATION th] := by
    intro th hth
    simp only [docsbot_handler, hack, him, hth]
    repeat' split
    all_goals simp [historyFetches, isHistoryFetch, List.filter_append]
  have ha : ∀ th, pyOr im.thread_ts im.ts = th →
      adSayEffects (handle_adcopy_action env2 body a p).1 = [.sayAds ads.ad_copies th] := by
    intro th hth
    cases hsay : env2.say <;>
      simp [handle_adcopy_action, him2, hga, hth, hsay, adSayEffects, isAdSay]
  constructor
  · intro hset hv
    have hth : pyOr im.thread_ts im.ts = some v := by
      simp [pyOr, pyTruthyStr, hset, hv]
    exact ⟨hd _ hth, ha _ hth⟩
  · intro hnone
    have hth : pyOr im.thread_ts im.ts = im.ts := by simp [pyOr, pyTruthyStr, hnone]
    exact ⟨hd _ hth, ha _ hth⟩

/-- Witness for C6: `thread_ts = "T1"` is used rather than `ts = "T2"`. -/
theorem thread_id_resolution_witness :
    historyFetches (docsbot_handler ⟨"app", "en", fun _ => "hi", "bye"⟩
      ⟨.ok (), .ok ⟨some "Q", some "U", some "T1", some "T2"⟩, .ok [],
        .ok ⟨[]⟩, fun _ _ => .ok ⟨"TS9"⟩, fun _ => .ok (), .ok (), id, fun _ => "R"⟩
      ⟨some "C"⟩).1 = [.getChatHistory "app" (some "T1")] :=
  ((thread_id_resolution ⟨"app", "en", fun _ => "hi", "bye"⟩
    ⟨.ok (), .ok ⟨some "Q", some "U", some "T1", some "T2"⟩, .ok [],
      .ok ⟨[]⟩, fun _ _ => .ok ⟨"TS9"⟩, fun _ => .ok (), .ok (), id, fun _ => "R"⟩
    ⟨.ok ⟨some "Q", some "U", some "T1", some "T2"⟩, .ok ⟨"ads"⟩, .ok ()⟩
    ⟨some "C"⟩ ⟨some "Q", some "U", some "T1", some "T2"⟩ "T1" "awareness" "executive" ⟨"ads"⟩
    rfl rfl rfl rfl).1 rfl (by decide)).1

/-- C10: a present-but-falsy `thread_ts` (the empty string) is treated like
an absent one: all three resolving handlers use the message's `ts` as the
thread id, because the resolution is `thread_ts or ts`. -/
theorem falsy_thread_ts_resolution (cfg : SlackConfig) (env : DocsbotEnv) (env2 : AdcopyEnv)
    (env3 : AdcopyMenuEnv) (body : SlackBody) (im : SlackMsg) (a p : String) (ads : AdsResponse)
    (hack : env.ack = .ok ())
    (him : env.get_initial_message = .ok im)
    (him2 : env2.get_initial_message = .ok im)
    (hga : env2.generate_ads = .ok ads)
    (hack3 : env3.ack = .ok ())
    (him3 : env3.get_initial_message = .ok im)
    (hset : im.thread_ts = some "") :
    historyFetches (docsbot_handler cfg env body).1 =
      [.getChatHistory cfg.APPLICATION im.ts] ∧
    adSayEffects (handle_adcopy_action env2 body a p).1 = [.sayAds ads.ad_copies im.ts] ∧
    blockSayEffects (adcopy_handler env3 body).1 = [.sayAdcopyBlocks im.ts] := by
  have hth : pyOr im.thread_ts im.ts = im.ts := by simp [pyOr, pyTruthyStr, hset]
  refine ⟨?_, ?_, ?_⟩
  · simp only [docsbot_handler, hack, him, hth]
    repeat' split
    all_goals simp [historyFetches, isHistoryFetch, List.filter_append]
  · cases hsay : env2.say <;>
      simp [handle_adcopy_action, him2, hga, hth, hsay, adSayEffects, isAdSay]
  · cases hsay : env3.say <;>
      simp [adcopy_handler, hack3, him3, hth, hsay, blockSayEffects, isBlockSay,
        List.filter_append]

/-- Witness for C10: `thread_ts = ""` falls back to `ts = "T2"`. -/
theorem falsy_thread_ts_resolution_witness :
    historyFetches (docsbot_handler ⟨"app", "en", fun _ => "hi", "bye"⟩
      ⟨.ok (), .ok ⟨some "Q", some "U", some "", some "T2"⟩, .ok [],
        .ok ⟨[]⟩, fun _ _ => .ok ⟨"TS9"⟩, fun _ => .ok (), .ok (), id, fun _ => "R"⟩
      ⟨some "C"⟩).1 = [.getChatHistory "app" (some "T2")] :=
  (falsy_thread_ts_resolution ⟨"app", "en", fun _ => "hi", "bye"⟩
    ⟨.ok (), .ok ⟨some "Q", some "U", some "", some "T2"⟩, .ok [],
      .ok ⟨[]⟩, fun _ _ => .ok ⟨"TS9"⟩, fun _ => .ok (), .ok (), id, fun _ => "R"⟩
    ⟨.ok ⟨some "Q", some "U", some "", some "T2"⟩, .ok ⟨"ads"⟩, .ok ()⟩
    ⟨.ok (), .ok ⟨some "Q", some "U", some "", some "T2"⟩, .ok ()⟩
    ⟨some "C"⟩ ⟨some "Q", some "U", some "", some "T2"⟩ "awareness" "executive" ⟨"ads"⟩
    rfl rfl rfl rfl rfl rfl rfl).1


-- Scan equations for pyReplace and a prefix-splitting toolkit.

theorem pyReplaceF_fuel (pat rep : List Char) :
    ∀ f g s, s.length ≤ f → s.length ≤ g → pyReplaceF pat rep f s = pyReplaceF pat rep g s := by
  intro f
  induction f with
  | zero =>
    intro g s hf hg
    have h0 : s = [] := List.length_eq_zero.mp (Nat.le_zero.mp hf)
    subst h0; cases g <;> rfl
  | succ f ih =>
    intro g s hf hg
    match s with
    | [] => cases g <;> rfl
    | c :: cs =>
      match g with
      | 0 => simp at hg
      | g + 1 =>
        simp only [List.length_cons] at hf hg
        simp only [pyReplaceF]
        split
        · next hcond =>
          have hparts := (Bool.and_eq_true _ _).mp hcond
          have hpe : pat.isEmpty = false := (Bool.not_eq_true' _).mp hparts.2
          have hp1 : 1 ≤ pat.length := by
            cases pat with
            | nil => simp [List.isEmpty] at hpe
            | cons a as => simp
          have hd : ((c :: cs).drop pat.length).length ≤ cs.length := by
            simp only [List.length_drop, List.length_cons]; omega
          exact congrArg (rep ++ ·) (ih g _ (by omega) (by omega))
        · exact congrArg (c :: ·) (ih g cs (by omega) (by omega))

theorem pyReplace_cons_pos {pat : List Char} {c : Char} {cs : List Char} (rep : List Char)
    (h : pat.isPrefixOf (c :: cs) = true) (hne : pat ≠ []) :
    pyReplace (c :: cs) pat rep = rep ++ pyReplace ((c :: cs).drop pat.length) pat rep := by
  have hpe : pat.isEmpty = false := by
    cases pat with | nil => exact absurd rfl hne | cons a as => rfl
  have hp1 : 1 ≤ pat.length := by
    cases pat with | nil => exact absurd rfl hne | cons a as => simp
  show pyReplaceF pat rep (c :: cs).length (c :: cs) = _
  simp only [List.length_cons, pyReplaceF, h, hpe, Bool.not_false, Bool.and_self, if_true]
  refine congrArg (rep ++ ·) (pyReplaceF_fuel pat rep cs.length _ _ ?_ (Nat.le_refl _))
  simp only [List.length_drop, List.length_cons]; omega

theorem pyReplace_cons_neg {pat : List Char} {c : Char} {cs : List Char} (rep : List Char)
    (h : pat.isPrefixOf (c :: cs) = false) :
    pyReplace (c :: cs) pat rep = c :: pyReplace cs pat rep := by
  show pyReplaceF pat rep (c :: cs).length (c :: cs) = _
  simp only [List.length_cons, pyReplaceF, h, Bool.false_and, Bool.false_eq_true, if_false]
  rfl

theorem pyReplace_nil (pat rep : List Char) : pyReplace [] pat rep = [] := rfl

theorem pyReplace_chunk {p0 : Char} {ps rep : List Char} {chunk : List Char} (s : List Char)
    (h : ∀ c ∈ chunk, c ≠ p0) :
    pyReplace (chunk ++ s) (p0 :: ps) rep = chunk ++ pyReplace s (p0 :: ps) rep := by
  induction chunk with
  | nil => rfl
  | cons c cs ih =>
    have hc : (p0 :: ps).isPrefixOf (c :: (cs ++ s)) = false := by
      have hb : (p0 == c) = false :=
        beq_eq_false_iff_ne.mpr (Ne.symm (h c (List.mem_cons_self _ _)))
      simp [List.isPrefixOf, hb]
    rw [List.cons_append, pyReplace_cons_neg rep hc,
      ih (fun x hx => h x (List.mem_cons_of_mem c hx)), List.cons_append]

theorem pyReplace_single (p : Char) (rep : List Char) (c : Char) (cs : List Char) :
    pyReplace (c :: cs) [p] rep = (if c = p then rep else [c]) ++ pyReplace cs [p] rep := by
  by_cases h : c = p
  · subst h
    have hpre : [c].isPrefixOf (c :: cs) = true := by simp [List.isPrefixOf]
    rw [pyReplace_cons_pos rep hpre (by simp)]
    simp
  · have hpre : [p].isPrefixOf (c :: cs) = false := by
      have hb : (p == c) = false := beq_eq_false_iff_ne.mpr (Ne.symm h)
      simp [List.isPrefixOf, hb]
    rw [pyReplace_cons_neg rep hpre]
    simp [h]

/-- Split a prefix of an append at the boundary. -/
theorem prefix_append_cases {a b c : List Char} (h : a <+: b ++ c) :
    a <+: b ∨ b <+: a := by
  by_cases hl : a.length ≤ b.length
  · exact Or.inl (List.prefix_of_prefix_length_le h (List.prefix_append b c) hl)
  · exact Or.inr (List.prefix_of_prefix_length_le (List.prefix_append b c) h (le_of_not_le hl))

theorem hasSub_cons_false {pat : List Char} {c : Char} {cs : List Char}
    (h : hasSub pat (c :: cs) = false) :
    pat.isPrefixOf (c :: cs) = false ∧ hasSub pat cs = false := by
  unfold hasSub at h ⊢
  simp only [List.tails, List.any_cons, Bool.or_eq_false_iff] at h
  refine ⟨h.1, ?_⟩
  cases cs with
  | nil =>
    simp only [List.tails, List.any_cons, List.any_nil, Bool.or_false] at h ⊢
    simp [h.2]
  | cons d ds => exact h.2

theorem hasSub_of_isPrefixOf {pat s : List Char} (h : pat.isPrefixOf s = true) :
    hasSub pat s = true := by
  unfold hasSub
  cases s with
  | nil => simpa [List.tails] using h
  | cons c cs => simp [List.tails, h]

/-- The marker text `TEMP_PLACEHOLDER_` is brace-free. -/
theorem tempMark_bf : bf tempMark = true := by decide

/-- The character `}` does not occur in `TEMP_PLACEHOLDER_`. -/
theorem rb_not_mem_tempMark : ('}' : Char) ∉ tempMark := by decide

/-- The marker text is borderless: no non-empty proper suffix of it is
one of its prefixes. -/
theorem tempMark_borderless :
    ∀ j, j < 17 → j ≠ 0 → tempMark.drop j ≠ tempMark.take (17 - j) := by decide

theorem bf_cons_all {l : List Char} (h : bf l = true) :
    ∀ c ∈ l, c ≠ '{' ∧ c ≠ '}' := by
  intro c hc
  unfold bf at h
  have := List.all_eq_true.mp h c hc
  simp only [Bool.and_eq_true, bne_iff_ne, ne_eq] at this
  exact this

theorem phPat_eq (k : List Char) : phPat k = '{' :: (k ++ ['}']) := rfl


-- No-spurious-match lemmas for the masking pass.

theorem bf_cons {c : Char} {cs : List Char} (h : bf (c :: cs) = true) :
    c ≠ '{' ∧ c ≠ '}' ∧ bf cs = true := by
  unfold bf at h ⊢
  simp only [List.all_cons, Bool.and_eq_true] at h
  rcases h with ⟨h1, h2⟩
  simp only [Bool.and_eq_true, bne_iff_ne, ne_eq] at h1
  exact ⟨h1.1, h1.2, h2⟩

theorem allBF_cons {t : GTok} {ts : List GTok} (h : allBF (t :: ts) = true) :
    tokBF t = true ∧ allBF ts = true := by
  unfold allBF at h ⊢
  simp only [List.all_cons, Bool.and_eq_true] at h
  exact h

theorem allNoMarker_cons {t : GTok} {ts : List GTok} (h : allNoMarker (t :: ts) = true) :
    tokNM t = true ∧ allNoMarker ts = true := by
  unfold allNoMarker at h ⊢
  simp only [List.all_cons, Bool.and_eq_true] at h
  exact h

/-- A brace-free text followed by a closing brace never reaches into marker
text: `kk ++ "}"` is not a prefix of `TEMP_PLACEHOLDER_ ++ s` unless
`TEMP_PLACEHOLDER_` is a prefix of `kk`. -/
theorem notPrefix_marker_blocks {kk : List Char} (s : List Char)
    (htm : tempMark.isPrefixOf kk = false) :
    (kk ++ ['}']).isPrefixOf (tempMark ++ s) = false := by
  by_contra hcon
  have hP : (kk ++ ['}']) <+: tempMark ++ s :=
    List.isPrefixOf_iff_prefix.mp (Bool.not_eq_false _ ▸ Bool.of_not_eq_false hcon)
  have htm' : ¬ (tempMark <+: kk) := fun hx =>
    (Bool.eq_false_iff.mp htm) (List.isPrefixOf_iff_prefix.mpr hx)
  rcases prefix_append_cases hP with h1 | h1
  · exact rb_not_mem_tempMark (h1.subset (by simp))
  · rcases prefix_append_cases h1 with h2 | h2
    · exact htm' h2
    · have hlen1 : tempMark.length ≤ kk.length + 1 := by
        simpa using h1.length_le
      have hlen2 : kk.length ≤ tempMark.length := h2.length_le
      by_cases he : kk.length = tempMark.length
      · exact htm' (h2.eq_of_length he ▸ List.prefix_refl _)
      · have he2 : tempMark.length = (kk ++ ['}']).length := by
          simp only [List.length_append, List.length_cons, List.length_nil]
          omega
        have := h1.eq_of_length he2
        exact rb_not_mem_tempMark (this ▸ (by simp : ('}' : Char) ∈ kk ++ ['}']))

/-- Distinct brace-free names do not confuse the placeholder pattern:
`k ++ "}"` is not a prefix of `n ++ "}" ++ s` when `k ≠ n`. -/
theorem notPrefix_name_name {k n : List Char} (s : List Char)
    (hk : bf k = true) (hn : bf n = true) (hne : k ≠ n) :
    (k ++ ['}']).isPrefixOf (n ++ '}' :: s) = false := by
  induction k generalizing n with
  | nil =>
    match n with
    | [] => exact absurd rfl hne
    | b :: n' =>
      rcases bf_cons hn with ⟨-, hb2, -⟩
      have : ('}' == b) = false := beq_eq_false_iff_ne.mpr (Ne.symm hb2)
      simp [List.isPrefixOf, this]
  | cons a k' ih =>
    rcases bf_cons hk with ⟨-, -, hk'⟩
    match n with
    | [] =>
      rcases bf_cons hk with ⟨-, ha2, -⟩
      have : (a == '}') = false := beq_eq_false_iff_ne.mpr ha2
      simp [List.isPrefixOf, this]
    | b :: n' =>
      rcases bf_cons hn with ⟨-, -, hn'⟩
      by_cases hab : a = b
      · subst hab
        have hne' : k' ≠ n' := fun h => hne (h ▸ rfl)
        simpa [List.isPrefixOf] using ih hk' hn' hne'
      · have : (a == b) = false := beq_eq_false_iff_ne.mpr hab
        simp [List.isPrefixOf, this]

/-- The run case of `lemA`, by induction along the run. -/
theorem lemA_run (r : List Char) (ts' : List GTok) :
    ∀ k : List Char, bf r = true → bf k = true → hasSub tempMark k = false →
    (r.isPrefixOf k && spellsEsc (k.drop r.length) ts') = false →
    (∀ k', bf k' = true → hasSub tempMark k' = false → spellsEsc k' ts' = false →
      (k' ++ ['}']).isPrefixOf (renderG ts') = false) →
    (k ++ ['}']).isPrefixOf (r ++ renderG ts') = false := by
  induction r with
  | nil =>
    intro k hr hk hkm hsp hrec
    have hsp' : spellsEsc k ts' = false := by simpa [List.isPrefixOf] using hsp
    simpa using hrec k hk hkm hsp'
  | cons c r' ihr =>
    intro k hr hk hkm hsp hrec
    rcases bf_cons hr with ⟨hc1, hc2, hr'⟩
    match k with
    | [] =>
      have hb : ('}' == c) = false := beq_eq_false_iff_ne.mpr (Ne.symm hc2)
      simp [List.isPrefixOf, hb]
    | a :: k' =>
      by_cases hac : a = c
      · subst hac
        rcases hasSub_cons_false hkm with ⟨-, hkm'⟩
        rcases bf_cons hk with ⟨-, -, hk'⟩
        have hsp' : (r'.isPrefixOf k' && spellsEsc (k'.drop r'.length) ts') = false := by
          simpa [List.isPrefixOf, List.drop_succ_cons] using hsp
        simpa [List.isPrefixOf] using ihr k' hr' hk' hkm' hsp' hrec
      · have hb : (a == c) = false := beq_eq_false_iff_ne.mpr hac
        simp [List.isPrefixOf, List.cons_append, hb]

/-- After the second brace of an escaped `{{`, the pattern `k}` cannot match
unless the following tokens spell `k` and then `}}` (`spellsEsc`). -/
theorem lemA (ts : List GTok) : ∀ k : List Char, bf k = true →
    hasSub tempMark k = false → allBF ts = true → spellsEsc k ts = false →
    (k ++ ['}']).isPrefixOf (renderG ts) = false := by
  induction ts with
  | nil =>
    intro k hk hkm hbf hsp
    match k with
    | [] => rfl
    | a :: k' => rfl
  | cons t ts' ih =>
    intro k hk hkm hbf hsp
    rcases allBF_cons hbf with ⟨hhead, hbf'⟩
    match t with
    | .run r =>
      have hr : bf r = true := hhead
      have hsp2 : (r.isPrefixOf k && spellsEsc (k.drop r.length) ts') = false := by
        simpa [spellsEsc] using hsp
      simpa [renderG, gtokStr] using
        lemA_run r ts' k hr hk hkm hsp2 (fun k' h1 h2 h3 => ih k' h1 h2 hbf' h3)
    | .esc true =>
      match k with
      | [] => rfl
      | a :: k' =>
        rcases bf_cons hk with ⟨ha1, -, -⟩
        have hb : (a == '{') = false := beq_eq_false_iff_ne.mpr ha1
        simp [renderG, gtokStr, List.isPrefixOf, hb]
    | .esc false =>
      have hke : k.isEmpty = false := by simpa [spellsEsc] using hsp
      match k with
      | [] => simp [List.isEmpty] at hke
      | a :: k' =>
        rcases bf_cons hk with ⟨-, ha2, -⟩
        have hb : (a == '}') = false := beq_eq_false_iff_ne.mpr ha2
        simp [renderG, gtokStr, List.isPrefixOf, hb]
    | .ph n =>
      match k with
      | [] => rfl
      | a :: k' =>
        rcases bf_cons hk with ⟨ha1, -, -⟩
        have hb : (a == '{') = false := beq_eq_false_iff_ne.mpr ha1
        simp [renderG, gtokStr, phPat, List.isPrefixOf, hb]
    | .mrk m =>
      have htm : tempMark.isPrefixOf k = false := by
        by_contra hcon
        have h1 : tempMark.isPrefixOf k = true := Bool.of_not_eq_false hcon
        rw [hasSub_of_isPrefixOf h1] at hkm
        cases hkm
      simp only [renderG, gtokStr, pyMarker, List.append_assoc]
      exact notPrefix_marker_blocks _ htm


-- One pass of the masking loop.

theorem escCollFree_cons_run {k r : List Char} {ts : List GTok}
    (h : escCollFree k (GTok.run r :: ts) = true) : escCollFree k ts = true := h

theorem escCollFree_cons_ph {k n : List Char} {ts : List GTok}
    (h : escCollFree k (GTok.ph n :: ts) = true) : escCollFree k ts = true := h

theorem escCollFree_cons_mrk {k n : List Char} {ts : List GTok}
    (h : escCollFree k (GTok.mrk n :: ts) = true) : escCollFree k ts = true := h

theorem escCollFree_cons_escF {k : List Char} {ts : List GTok}
    (h : escCollFree k (GTok.esc false :: ts) = true) : escCollFree k ts = true := h

theorem escCollFree_cons_escT {k : List Char} {ts : List GTok}
    (h : escCollFree k (GTok.esc true :: ts) = true) :
    spellsEsc k ts = false ∧ escCollFree k ts = true := by
  unfold escCollFree at h
  rcases (Bool.and_eq_true _ _).mp h with ⟨h1, h2⟩
  exact ⟨(Bool.not_eq_true' _).mp h1, h2⟩

theorem pyReplace_chunk_ph {k rep : List Char} {chunk : List Char} (s : List Char)
    (h : ∀ c ∈ chunk, c ≠ '{') :
    pyReplace (chunk ++ s) (phPat k) rep = chunk ++ pyReplace s (phPat k) rep :=
  pyReplace_chunk s h

theorem renderG_cons (t : GTok) (ts : List GTok) :
    renderG (t :: ts) = gtokStr t ++ renderG ts := rfl

theorem drop_phPat (k : List Char) (rest : List Char) :
    ('{' :: ((k ++ ['}']) ++ rest)).drop (phPat k).length = rest := by
  have h1 : (phPat k).length = (k ++ ['}']).length + 1 := by simp [phPat]
  rw [h1, List.drop_succ_cons, List.drop_left]

/-- One pass of the masking loop: replacing `{k}` by its marker turns
exactly the `k`-placeholders into masked tokens and changes nothing else. -/
theorem mask_step (k : List Char) (hk : bf k = true) (hkne : k ≠ [])
    (hkm : hasSub tempMark k = false) :
    ∀ ts : List GTok, allBF ts = true → escCollFree k ts = true →
    pyReplace (renderG ts) (phPat k) (pyMarker k) = renderG (ts.map (maskTok [k])) := by
  intro ts
  induction ts with
  | nil => intro _ _; rfl
  | cons t ts' ih =>
    intro hbf hcoll
    rcases allBF_cons hbf with ⟨hhead, hbf'⟩
    match t with
    | .run r =>
      have hr : bf r = true := hhead
      have hnolb : ∀ c ∈ r, c ≠ '{' := fun c hc => (bf_cons_all hr c hc).1
      rw [renderG_cons, show gtokStr (GTok.run r) = r from rfl,
        pyReplace_chunk_ph _ hnolb, ih hbf' (escCollFree_cons_run hcoll),
        List.map_cons, show maskTok [k] (GTok.run r) = GTok.run r from rfl, renderG_cons]
      rfl
    | .esc false =>
      have hb : (phPat k).isPrefixOf ('}' :: ('}' :: renderG ts')) = false := by
        simp [phPat, List.isPrefixOf]
      have hb2 : (phPat k).isPrefixOf ('}' :: renderG ts') = false := by
        simp [phPat, List.isPrefixOf]
      rw [renderG_cons, show gtokStr (GTok.esc false) = ['}', '}'] from rfl,
        show (['}', '}'] : List Char) ++ renderG ts' = '}' :: ('}' :: renderG ts') from by simp,
        pyReplace_cons_neg _ hb, pyReplace_cons_neg _ hb2,
        ih hbf' (escCollFree_cons_escF hcoll), List.map_cons,
        show maskTok [k] (GTok.esc false) = GTok.esc false from rfl, renderG_cons]
      rfl
    | .esc true =>
      rcases escCollFree_cons_escT hcoll with ⟨hsp, hcoll'⟩
      have hk0 : ∃ a k'', k = a :: k'' := by
        cases k with
        | nil => exact absurd rfl hkne
        | cons a k'' => exact ⟨a, k'', rfl⟩
      rcases hk0 with ⟨a, k'', hkeq⟩
      have ha1 : a ≠ '{' := by
        rw [hkeq] at hk; exact (bf_cons hk).1
      have hb : (a == '{') = false := beq_eq_false_iff_ne.mpr ha1
      have hstep1 : (phPat k).isPrefixOf ('{' :: ('{' :: renderG ts')) = false := by
        rw [hkeq]; simp [phPat, List.isPrefixOf, hb]
      have htail : (k ++ ['}']).isPrefixOf (renderG ts') = false :=
        lemA ts' k hk hkm hbf' hsp
      have hstep2 : (phPat k).isPrefixOf ('{' :: renderG ts') = false := by
        simp only [phPat, List.isPrefixOf, beq_self_eq_true, Bool.true_and]
        exact htail
      rw [renderG_cons, show gtokStr (GTok.esc true) = ['{', '{'] from rfl,
        show (['{', '{'] : List Char) ++ renderG ts' = '{' :: ('{' :: renderG ts') from by simp,
        pyReplace_cons_neg _ hstep1, pyReplace_cons_neg _ hstep2,
        ih hbf' hcoll', List.map_cons,
        show maskTok [k] (GTok.esc true) = GTok.esc true from rfl, renderG_cons]
      rfl
    | .ph n =>
      have hn : bf n = true := hhead
      by_cases hnk : n = k
      · subst hnk
        have hpre : (phPat n).isPrefixOf ('{' :: ((n ++ ['}']) ++ renderG ts')) = true := by
          apply List.isPrefixOf_iff_prefix.mpr
          rw [show ('{' : Char) :: ((n ++ ['}']) ++ renderG ts') = phPat n ++ renderG ts'
            from by simp [phPat]]
          exact List.prefix_append _ _
        have hmask : maskTok [n] (GTok.ph n) = GTok.mrk n := by simp [maskTok]
        rw [renderG_cons, show gtokStr (GTok.ph n) = phPat n from rfl,
          show phPat n ++ renderG ts' = '{' :: ((n ++ ['}']) ++ renderG ts')
            from by simp [phPat],
          pyReplace_cons_pos _ hpre (by simp [phPat]),
          drop_phPat, ih hbf' (escCollFree_cons_ph hcoll), List.map_cons, hmask,
          renderG_cons, show gtokStr (GTok.mrk n) = pyMarker n from rfl]
      · have h1 : (k ++ ['}']).isPrefixOf (n ++ '}' :: renderG ts') = false :=
          notPrefix_name_name _ hk hn (Ne.symm hnk)
        have hne2 : (phPat k).isPrefixOf ('{' :: (n ++ '}' :: renderG ts')) = false := by
          simp only [phPat, List.isPrefixOf, beq_self_eq_true, Bool.true_and]
          exact h1
        have hmask : maskTok [k] (GTok.ph n) = GTok.ph n := by simp [maskTok, hnk]
        have hnolb : ∀ c ∈ n, c ≠ '{' := fun c hc => (bf_cons_all hn c hc).1
        have hb2 : (phPat k).isPrefixOf ('}' :: renderG ts') = false := by
          simp [phPat, List.isPrefixOf]
        rw [renderG_cons, show gtokStr (GTok.ph n) = phPat n from rfl,
          show phPat n ++ renderG ts' = '{' :: (n ++ '}' :: renderG ts')
            from by simp [phPat],
          pyReplace_cons_neg _ hne2, pyReplace_chunk_ph _ hnolb,
          pyReplace_cons_neg _ hb2, ih hbf' (escCollFree_cons_ph hcoll),
          List.map_cons, hmask, renderG_cons,
          show gtokStr (GTok.ph n) = phPat n from rfl,
          show phPat n ++ renderG (List.map (maskTok [k]) ts') =
            '{' :: (n ++ '}' :: renderG (List.map (maskTok [k]) ts'))
            from by simp [phPat]]
    | .mrk m =>
      have hm : bf m = true := hhead
      have hnolb : ∀ c ∈ tempMark ++ m, c ≠ '{' := by
        intro c hc
        rcases List.mem_append.mp hc with hq | hq
        · exact (bf_cons_all tempMark_bf c hq).1
        · exact (bf_cons_all hm c hq).1
      rw [renderG_cons, show gtokStr (GTok.mrk m) = pyMarker m from rfl, pyMarker,
        pyReplace_chunk_ph _ hnolb,
        ih hbf' (escCollFree_cons_mrk hcoll), List.map_cons,
        show maskTok [k] (GTok.mrk m) = GTok.mrk m from rfl, renderG_cons,
        show gtokStr (GTok.mrk m) = pyMarker m from rfl, pyMarker]


-- The brace-doubling pass on a masked token string.

theorem pyReplace_single_append (p : Char) (rep a b : List Char) :
    pyReplace (a ++ b) [p] rep = pyReplace a [p] rep ++ pyReplace b [p] rep := by
  induction a with
  | nil => rw [List.nil_append, pyReplace_nil, List.nil_append]
  | cons c cs ih =>
    rw [List.cons_append, pyReplace_single, pyReplace_single, ih, List.append_assoc]

theorem pyReplace_single_id (p : Char) (rep : List Char) {chunk : List Char}
    (h : ∀ c ∈ chunk, c ≠ p) :
    pyReplace chunk [p] rep = chunk := by
  induction chunk with
  | nil => rfl
  | cons c cs ih =>
    rw [pyReplace_single, if_neg (h c (List.mem_cons_self _ _)),
      ih (fun x hx => h x (List.mem_cons_of_mem c hx)), List.singleton_append]

/-- The brace-doubling passes on the string of a single non-placeholder
token produce its `gtokStrE` form. -/
theorem escape_tok (t : GTok) (hbf : tokBF t = true) (hph : ∀ n, t ≠ GTok.ph n) :
    pyReplace (pyReplace (gtokStr t) ['{'] ['{', '{']) ['}'] ['}', '}'] = gtokStrE t := by
  match t with
  | .run r =>
    have hb := bf_cons_all hbf
    rw [show gtokStr (GTok.run r) = r from rfl,
      pyReplace_single_id _ _ (fun c hc => (hb c hc).1),
      pyReplace_single_id _ _ (fun c hc => (hb c hc).2)]
    rfl
  | .esc true => rfl
  | .esc false => rfl
  | .ph n => exact absurd rfl (hph n)
  | .mrk m =>
    have hm : bf m = true := hbf
    have hb : ∀ c ∈ tempMark ++ m, c ≠ '{' ∧ c ≠ '}' := by
      intro c hc
      rcases List.mem_append.mp hc with hq | hq
      · exact bf_cons_all tempMark_bf c hq
      · exact bf_cons_all hm c hq
    rw [show gtokStr (GTok.mrk m) = tempMark ++ m from rfl,
      pyReplace_single_id _ _ (fun c hc => (hb c hc).1),
      pyReplace_single_id _ _ (fun c hc => (hb c hc).2)]
    rfl

theorem renderE_cons (t : GTok) (ts : List GTok) :
    renderE (t :: ts) = gtokStrE t ++ renderE ts := rfl

/-- The brace-doubling passes on a fully masked token string. -/
theorem escape_masked : ∀ ts : List GTok, allBF ts = true →
    (∀ n, GTok.ph n ∈ ts → False) →
    pyReplace (pyReplace (renderG ts) ['{'] ['{', '{']) ['}'] ['}', '}'] = renderE ts := by
  intro ts
  induction ts with
  | nil => intro _ _; rfl
  | cons t ts' ih =>
    intro hbf hph
    rcases allBF_cons hbf with ⟨hhead, hbf'⟩
    rw [renderG_cons, pyReplace_single_append, pyReplace_single_append,
      escape_tok t hhead (fun n hn => hph n (hn ▸ List.mem_cons_self _ _)),
      ih hbf' (fun n hn => hph n (List.mem_cons_of_mem t hn)), renderE_cons]


-- Marker-scanning safety for the restore pass.

theorem tempMark_tail_noT : ∀ c ∈ tempMark.drop 1, c ≠ 'T' := by decide

theorem tempMark_mem_bf : ∀ c ∈ tempMark, c ≠ '{' ∧ c ≠ '}' := by decide

theorem hasSub_false_of_noMarker {l : List Char} (h : noMarker l = true) :
    hasSub tempMark l = false := (Bool.not_eq_true' _).mp h

theorem normalB_cons {t : GTok} {ts : List GTok} (h : normalB (t :: ts) = true) :
    normalB ts = true := by
  match t, ts with
  | .run r, .run r' :: ts' => exact absurd h (by simp [normalB])
  | .run r, [] => rfl
  | .run r, .esc b :: ts' => exact h
  | .run r, .ph n :: ts' => exact h
  | .run r, .mrk n :: ts' => exact h
  | .esc b, ts => exact h
  | .ph n, ts => exact h
  | .mrk n, ts => exact h

theorem normalB_headNotRun {r : List Char} {ts : List GTok}
    (h : normalB (GTok.run r :: ts) = true) : headNotRun ts = true := by
  match ts with
  | [] => rfl
  | .run r' :: ts' => exact absurd h (by simp [normalB])
  | .esc b :: ts' => rfl
  | .ph n :: ts' => rfl
  | .mrk n :: ts' => rfl

/-- The marker pattern starts with `T`, so it cannot match at any other
character. -/
theorem marker_notPrefix (k X : List Char) (c : Char) (hc : c ≠ 'T') :
    (pyMarker k).isPrefixOf (c :: X) = false := by
  have hb : ('T' == c) = false := beq_eq_false_iff_ne.mpr (Ne.symm hc)
  show (tempMark ++ k).isPrefixOf (c :: X) = false
  rw [show tempMark ++ k = 'T' :: (tempMark.drop 1 ++ k) from rfl]
  simp [List.isPrefixOf, hb]

/-- Scanning a marker-free literal run for a marker: no match can start
inside the run, including at its boundary with the following (non-run)
token. -/
theorem lemB (k : List Char) : ∀ (r : List Char) (ts' : List GTok),
    hasSub tempMark r = false → headNotRun ts' = true →
    pyReplace (r ++ renderE ts') (pyMarker k) (phPat k) =
      r ++ pyReplace (renderE ts') (pyMarker k) (phPat k) := by
  intro r
  induction r with
  | nil => intro ts' _ _; rfl
  | cons c r' ih =>
    intro ts' hsub hhead
    rcases hasSub_cons_false hsub with ⟨-, hsub'⟩
    have hnp : (pyMarker k).isPrefixOf (c :: (r' ++ renderE ts')) = false := by
      by_contra hcon
      have hP : (tempMark ++ k) <+: (c :: r') ++ renderE ts' := by
        rw [List.cons_append]
        exact List.isPrefixOf_iff_prefix.mp (Bool.of_not_eq_false hcon)
      rcases prefix_append_cases hP with hA | hB
      · have hpq : tempMark <+: c :: r' := List.IsPrefix.trans (List.prefix_append _ _) hA
        rw [hasSub_of_isPrefixOf (List.isPrefixOf_iff_prefix.mpr hpq)] at hsub
        cases hsub
      · by_cases hlen : 17 ≤ (c :: r').length
        · have hpq : tempMark <+: c :: r' :=
            List.prefix_of_prefix_length_le (List.prefix_append _ _) hB
              (by simpa [tempMark] using hlen)
          rw [hasSub_of_isPrefixOf (List.isPrefixOf_iff_prefix.mpr hpq)] at hsub
          cases hsub
        · push_neg at hlen
          simp only [List.length_cons] at hlen
          rcases hP with ⟨t, ht⟩
          have hjle : r'.length + 1 ≤ (tempMark ++ k).length := by
            simp [tempMark]
            omega
          have hsplit : List.drop (r'.length + 1) ((tempMark ++ k) ++ t) =
              List.drop (r'.length + 1) (tempMark ++ k) ++ t :=
            List.drop_append_of_le_length hjle
          have hdrop : renderE ts' = List.drop (r'.length + 1) (tempMark ++ k) ++ t := by
            have h2 := congrArg (List.drop (r'.length + 1)) ht
            rw [show ((c :: r') ++ renderE ts').drop (r'.length + 1) = renderE ts' from
              List.drop_left (c :: r') (renderE ts'), hsplit] at h2
            exact h2.symm
          have hdr2 : List.drop (r'.length + 1) (tempMark ++ k) =
              tempMark.drop (r'.length + 1) ++ k :=
            List.drop_append_of_le_length (by simp [tempMark]; omega)
          obtain ⟨d, ds, hd⟩ : ∃ d ds, tempMark.drop (r'.length + 1) = d :: ds := by
            cases hq : tempMark.drop (r'.length + 1) with
            | nil =>
              rw [List.drop_eq_nil_iff] at hq
              simp [tempMark] at hq
              omega
            | cons d ds => exact ⟨d, ds, rfl⟩
          have hdd : tempMark.drop (r'.length + 1) = (tempMark.drop 1).drop r'.length := by
            rw [List.drop_drop]
            congr 1
            omega
          have hdmem : d ∈ tempMark.drop 1 := by
            rw [hdd] at hd
            exact List.drop_subset _ _ (hd ▸ List.mem_cons_self d _)
          have hdT : d ≠ 'T' := tempMark_tail_noT d hdmem
          have hdbr : d ≠ '{' ∧ d ≠ '}' :=
            tempMark_mem_bf d (List.drop_subset _ _ hdmem)
          rw [hdr2, hd, List.cons_append] at hdrop
          match ts', hhead with
          | [], _ => cases hdrop
          | GTok.esc true :: l, _ =>
            have hre : renderE (GTok.esc true :: l) = '{' :: ('{' :: '{' :: '{' :: renderE l) := rfl
            rw [hre] at hdrop
            injection hdrop with h1 _
            exact hdbr.1 h1.symm
          | GTok.esc false :: l, _ =>
            have hre : renderE (GTok.esc false :: l) = '}' :: ('}' :: '}' :: '}' :: renderE l) := rfl
            rw [hre] at hdrop
            injection hdrop with h1 _
            exact hdbr.2 h1.symm
          | GTok.ph n :: l, _ =>
            have hre : renderE (GTok.ph n :: l) = '{' :: (n ++ '}' :: renderE l) := by
              show phPat n ++ renderE l = _
              simp [phPat]
            rw [hre] at hdrop
            injection hdrop with h1 _
            exact hdbr.1 h1.symm
          | GTok.mrk m :: l, _ =>
            have hre : renderE (GTok.mrk m :: l) = 'T' :: ((tempMark.drop 1 ++ m) ++ renderE l) := by
              show (tempMark ++ m) ++ renderE l = _
              rfl
            rw [hre] at hdrop
            injection hdrop with h1 _
            exact hdT h1.symm
    rw [List.cons_append, pyReplace_cons_neg _ hnp, ih ts' hsub' hhead, List.cons_append]

/-- Scanning a masked name for a marker: safe for names that neither contain
the marker nor end with one of its prefixes, whatever follows. -/
theorem lemBname (k : List Char) : ∀ (m X : List Char),
    hasSub tempMark m = false →
    (∀ m₂, m₂ <:+ m → m₂ ≠ [] → ¬(m₂ <+: tempMark)) →
    pyReplace (m ++ X) (pyMarker k) (phPat k) = m ++ pyReplace X (pyMarker k) (phPat k) := by
  intro m
  induction m with
  | nil => intro X _ _; rfl
  | cons c m' ih =>
    intro X hsub hnt
    rcases hasSub_cons_false hsub with ⟨-, hsub'⟩
    have hnp : (pyMarker k).isPrefixOf (c :: (m' ++ X)) = false := by
      by_contra hcon
      have hP : (tempMark ++ k) <+: (c :: m') ++ X := by
        rw [List.cons_append]
        exact List.isPrefixOf_iff_prefix.mp (Bool.of_not_eq_false hcon)
      rcases prefix_append_cases hP with hA | hB
      · have hpq : tempMark <+: c :: m' := List.IsPrefix.trans (List.prefix_append _ _) hA
        rw [hasSub_of_isPrefixOf (List.isPrefixOf_iff_prefix.mpr hpq)] at hsub
        cases hsub
      · by_cases hlen : 17 ≤ (c :: m').length
        · have hpq : tempMark <+: c :: m' :=
            List.prefix_of_prefix_length_le (List.prefix_append _ _) hB
              (by simpa [tempMark] using hlen)
          rw [hasSub_of_isPrefixOf (List.isPrefixOf_iff_prefix.mpr hpq)] at hsub
          cases hsub
        · push_neg at hlen
          simp only [List.length_cons] at hlen
          have hpt : (c :: m') <+: tempMark :=
            List.prefix_of_prefix_length_le hB (List.prefix_append _ _)
              (by simp [tempMark]; omega)
          exact hnt (c :: m') (List.suffix_refl _) (by simp) hpt
    rw [List.cons_append, pyReplace_cons_neg _ hnp,
      ih X hsub' (fun m₂ hm₂ hne => hnt m₂ (hm₂.trans (List.suffix_cons c m')) hne),
      List.cons_append]

theorem noMarkTail_spec {m : List Char} (h : noMarkTail m = true) :
    ∀ m₂, m₂ <:+ m → m₂ ≠ [] → ¬(m₂ <+: tempMark) := by
  intro m₂ hsuf hne hpre
  have hlen : m₂.length ≤ 17 := by simpa [tempMark] using hpre.length_le
  have h1 : 1 ≤ m₂.length := by
    cases m₂ with
    | nil => exact absurd rfl hne
    | cons a as => simp
  have htake : m₂ = tempMark.take m₂.length := List.prefix_iff_eq_take.mp hpre
  unfold noMarkTail at h
  have h2 := List.all_eq_true.mp h m₂.length
    (List.mem_range.mpr (by simp [tempMark]; omega))
  simp only [Bool.or_eq_true, decide_eq_true_eq, Bool.not_eq_true'] at h2
  rcases h2 with h2 | h2
  · omega
  · rw [← htake] at h2
    rw [List.isSuffixOf_iff_suffix.mpr hsuf] at h2
    cases h2


-- One pass of the restore loop.

theorem pyReplace_chunk_marker {k rep : List Char} {chunk : List Char} (s : List Char)
    (h : ∀ c ∈ chunk, c ≠ 'T') :
    pyReplace (chunk ++ s) (pyMarker k) rep = chunk ++ pyReplace s (pyMarker k) rep :=
  pyReplace_chunk s h

theorem marker_cons (k X : List Char) :
    pyMarker k ++ X = 'T' :: ((tempMark.drop 1 ++ k) ++ X) := by
  show (tempMark ++ k) ++ X = _
  rfl

theorem pyReplace_exact_marker (k X : List Char) :
    pyReplace (pyMarker k ++ X) (pyMarker k) (phPat k) =
      phPat k ++ pyReplace X (pyMarker k) (phPat k) := by
  rw [marker_cons]
  rw [pyReplace_cons_pos _ (by
      rw [← marker_cons]
      exact List.isPrefixOf_iff_prefix.mpr (List.prefix_append _ _))
    (by simp [pyMarker, tempMark])]
  rw [← marker_cons, List.drop_left]

/-- One pass of the restore loop: replacing the marker of `k` by `{k}`
turns exactly the masked `k`-tokens back into placeholders and changes
nothing else. -/
theorem unmask_step (k : List Char) :
    ∀ ts : List GTok, allNoMarker ts = true → normalB ts = true →
    (∀ n, GTok.ph n ∈ ts ∨ GTok.mrk n ∈ ts → noMarkTail n = true) →
    (∀ m, GTok.mrk m ∈ ts → m ≠ k → ¬(k <+: m) ∧ ¬(m <+: k)) →
    pyReplace (renderE ts) (pyMarker k) (phPat k) = renderE (ts.map (unmaskTok [k])) := by
  intro ts
  induction ts with
  | nil => intro _ _ _ _; rfl
  | cons t ts' ih =>
    intro hnm hnorm hnt hpf
    rcases allNoMarker_cons hnm with ⟨hnmhead, hnm'⟩
    have hnt' : ∀ n, GTok.ph n ∈ ts' ∨ GTok.mrk n ∈ ts' → noMarkTail n = true :=
      fun n hn => hnt n (hn.imp (List.mem_cons_of_mem t) (List.mem_cons_of_mem t))
    have hpf' : ∀ m, GTok.mrk m ∈ ts' → m ≠ k → ¬(k <+: m) ∧ ¬(m <+: k) :=
      fun m hm => hpf m (List.mem_cons_of_mem t hm)
    match t with
    | .run r =>
      have hsub : hasSub tempMark r = false := hasSub_false_of_noMarker hnmhead
      rw [renderE_cons, show gtokStrE (GTok.run r) = r from rfl,
        lemB k r ts' hsub (normalB_headNotRun hnorm),
        ih hnm' (normalB_cons hnorm) hnt' hpf', List.map_cons,
        show unmaskTok [k] (GTok.run r) = GTok.run r from rfl, renderE_cons]
      rfl
    | .esc true =>
      have hb : ('{' : Char) ≠ 'T' := by decide
      rw [renderE_cons, show gtokStrE (GTok.esc true) = ['{', '{', '{', '{'] from rfl,
        show (['{', '{', '{', '{'] : List Char) ++ renderE ts' =
          '{' :: ('{' :: ('{' :: ('{' :: renderE ts'))) from by simp,
        pyReplace_cons_neg _ (marker_notPrefix _ _ _ hb),
        pyReplace_cons_neg _ (marker_notPrefix _ _ _ hb),
        pyReplace_cons_neg _ (marker_notPrefix _ _ _ hb),
        pyReplace_cons_neg _ (marker_notPrefix _ _ _ hb),
        ih hnm' (normalB_cons hnorm) hnt' hpf', List.map_cons,
        show unmaskTok [k] (GTok.esc true) = GTok.esc true from rfl, renderE_cons]
      rfl
    | .esc false =>
      have hb : ('}' : Char) ≠ 'T' := by decide
      rw [renderE_cons, show gtokStrE (GTok.esc false) = ['}', '}', '}', '}'] from rfl,
        show (['}', '}', '}', '}'] : List Char) ++ renderE ts' =
          '}' :: ('}' :: ('}' :: ('}' :: renderE ts'))) from by simp,
        pyReplace_cons_neg _ (marker_notPrefix _ _ _ hb),
        pyReplace_cons_neg _ (marker_notPrefix _ _ _ hb),
        pyReplace_cons_neg _ (marker_notPrefix _ _ _ hb),
        pyReplace_cons_neg _ (marker_notPrefix _ _ _ hb),
        ih hnm' (normalB_cons hnorm) hnt' hpf', List.map_cons,
        show unmaskTok [k] (GTok.esc false) = GTok.esc false from rfl, renderE_cons]
      rfl
    | .ph n =>
      have hsub : hasSub tempMark n = false := hasSub_false_of_noMarker hnmhead
      have hncase : noMarkTail n = true := hnt n (Or.inl (List.mem_cons_self _ _))
      have hlb : ('{' : Char) ≠ 'T' := by decide
      have hrb : ('}' : Char) ≠ 'T' := by decide
      rw [renderE_cons, show gtokStrE (GTok.ph n) = phPat n from rfl,
        show phPat n ++ renderE ts' = '{' :: (n ++ '}' :: renderE ts') from by simp [phPat],
        pyReplace_cons_neg _ (marker_notPrefix _ _ _ hlb),
        lemBname k n ('}' :: renderE ts') hsub (noMarkTail_spec hncase),
        pyReplace_cons_neg _ (marker_notPrefix _ _ _ hrb),
        ih hnm' (normalB_cons hnorm) hnt' hpf', List.map_cons,
        show unmaskTok [k] (GTok.ph n) = GTok.ph n from rfl, renderE_cons,
        show gtokStrE (GTok.ph n) = phPat n from rfl,
        show phPat n ++ renderE (List.map (unmaskTok [k]) ts') =
          '{' :: (n ++ '}' :: renderE (List.map (unmaskTok [k]) ts')) from by simp [phPat]]
    | .mrk m =>
      by_cases hmk : m = k
      · subst hmk
        have hum : unmaskTok [m] (GTok.mrk m) = GTok.ph m := by simp [unmaskTok]
        rw [renderE_cons, show gtokStrE (GTok.mrk m) = pyMarker m from rfl,
          pyReplace_exact_marker,
          ih hnm' (normalB_cons hnorm) hnt' hpf', List.map_cons, hum, renderE_cons,
          show gtokStrE (GTok.ph m) = phPat m from rfl]
      · have hsub : hasSub tempMark m = false := hasSub_false_of_noMarker hnmhead
        have hncase : noMarkTail m = true := hnt m (Or.inr (List.mem_cons_self _ _))
        rcases hpf m (List.mem_cons_self _ _) hmk with ⟨hpf1, hpf2⟩
        have hnp0 : (pyMarker k).isPrefixOf (pyMarker m ++ renderE ts') = false := by
          by_contra hcon
          have hP : tempMark ++ k <+: (tempMark ++ m) ++ renderE ts' :=
            List.isPrefixOf_iff_prefix.mp (Bool.of_not_eq_false hcon)
          rw [List.append_assoc] at hP
          have hP2 : k <+: m ++ renderE ts' := (List.prefix_append_right_inj _).mp hP
          rcases prefix_append_cases hP2 with hc1 | hc1
          · exact hpf1 hc1
          · exact hpf2 hc1
        have hum : unmaskTok [k] (GTok.mrk m) = GTok.mrk m := by simp [unmaskTok, hmk]
        rw [renderE_cons, show gtokStrE (GTok.mrk m) = pyMarker m from rfl, marker_cons,
          pyReplace_cons_neg _ (by rw [← marker_cons]; exact hnp0),
          show (tempMark.drop 1 ++ m) ++ renderE ts' =
            tempMark.drop 1 ++ (m ++ renderE ts') from by simp,
          pyReplace_chunk_marker _ tempMark_tail_noT,
          lemBname k m (renderE ts') hsub (noMarkTail_spec hncase),
          ih hnm' (normalB_cons hnorm) hnt' hpf', List.map_cons, hum, renderE_cons,
          show gtokStrE (GTok.mrk m) = pyMarker m from rfl, marker_cons]
        simp


-- Invariance of the token predicates under masking, and the masking loop.

theorem maskTok_nil_id (t : GTok) : maskTok [] t = t := by
  cases t <;> simp [maskTok]

theorem maskTok_comp (k : List Char) (S : List (List Char)) (t : GTok) :
    maskTok S (maskTok [k] t) = maskTok (k :: S) t := by
  cases t with
  | ph n =>
    by_cases h1 : n = k
    · simp [maskTok, h1]
    · by_cases h2 : n ∈ S <;> simp [maskTok, h1, h2]
  | run r => rfl
  | esc b => rfl
  | mrk n => rfl

theorem unmaskTok_comp (k : List Char) (S : List (List Char)) (t : GTok) :
    unmaskTok S (unmaskTok [k] t) = unmaskTok (k :: S) t := by
  cases t with
  | mrk n =>
    by_cases h1 : n = k
    · simp [unmaskTok, h1]
    · by_cases h2 : n ∈ S <;> simp [unmaskTok, h1, h2]
  | run r => rfl
  | esc b => rfl
  | ph n => rfl

theorem all_map_eq {f : GTok → GTok} {p : GTok → Bool} (hf : ∀ t, p (f t) = p t) :
    ∀ ts : List GTok, (ts.map f).all p = ts.all p := by
  intro ts
  induction ts with
  | nil => rfl
  | cons t ts ih => simp only [List.map_cons, List.all_cons, hf, ih]

theorem tokBF_maskTok (S : List (List Char)) (t : GTok) : tokBF (maskTok S t) = tokBF t := by
  cases t with
  | ph n => simp only [maskTok]; split <;> rfl
  | run r => rfl
  | esc b => rfl
  | mrk n => rfl

theorem allBF_maskTok (S : List (List Char)) (ts : List GTok) :
    allBF (ts.map (maskTok S)) = allBF ts := by
  exact all_map_eq (tokBF_maskTok S) ts

theorem tokNM_maskTok (S : List (List Char)) (t : GTok) : tokNM (maskTok S t) = tokNM t := by
  cases t with
  | ph n => simp only [maskTok]; split <;> rfl
  | run r => rfl
  | esc b => rfl
  | mrk n => rfl

theorem allNoMarker_maskTok (S : List (List Char)) (ts : List GTok) :
    allNoMarker (ts.map (maskTok S)) = allNoMarker ts := by
  exact all_map_eq (tokNM_maskTok S) ts

theorem tokNM_unmaskTok (S : List (List Char)) (t : GTok) : tokNM (unmaskTok S t) = tokNM t := by
  cases t with
  | mrk n => simp only [unmaskTok]; split <;> rfl
  | run r => rfl
  | esc b => rfl
  | ph n => rfl

theorem allNoMarker_unmaskTok (S : List (List Char)) (ts : List GTok) :
    allNoMarker (ts.map (unmaskTok S)) = allNoMarker ts := by
  exact all_map_eq (tokNM_unmaskTok S) ts

theorem spellsEsc_maskTok (S : List (List Char)) :
    ∀ (ts : List GTok) (k : List Char), spellsEsc k (ts.map (maskTok S)) = spellsEsc k ts := by
  intro ts
  induction ts with
  | nil => intro k; rfl
  | cons t ts' ih =>
    intro k
    match t with
    | .run r => simp only [List.map_cons, show maskTok S (GTok.run r) = GTok.run r from rfl,
        spellsEsc, ih]
    | .esc true => rfl
    | .esc false => rfl
    | .ph n =>
      show spellsEsc k (maskTok S (GTok.ph n) :: _) = _
      simp only [maskTok]
      split <;> rfl
    | .mrk n => rfl

theorem escCollFree_maskTok (S : List (List Char)) :
    ∀ (ts : List GTok) (k : List Char),
    escCollFree k (ts.map (maskTok S)) = escCollFree k ts := by
  intro ts
  induction ts with
  | nil => intro k; rfl
  | cons t ts' ih =>
    intro k
    match t with
    | .run r =>
      show escCollFree k (GTok.run r :: _) = _
      rw [escCollFree, escCollFree, ih] <;> simp
    | .esc true =>
      show escCollFree k (GTok.esc true :: _) = _
      rw [escCollFree, escCollFree, ih, spellsEsc_maskTok]
    | .esc false =>
      show escCollFree k (GTok.esc false :: _) = _
      rw [escCollFree, escCollFree, ih] <;> simp
    | .ph n =>
      show escCollFree k (maskTok S (GTok.ph n) :: _) = _
      simp only [maskTok]
      split
      · rw [escCollFree, escCollFree, ih] <;> simp
      · rw [escCollFree, escCollFree, ih] <;> simp
    | .mrk n =>
      show escCollFree k (GTok.mrk n :: _) = _
      rw [escCollFree, escCollFree, ih] <;> simp

/-- The whole masking loop, for any list of names that are valid and
collision-free for the template. -/
theorem mask_fold : ∀ (ks : List (List Char)) (ts : List GTok),
    (∀ x ∈ ks, bf x = true ∧ x ≠ [] ∧ hasSub tempMark x = false) →
    allBF ts = true → (∀ x ∈ ks, escCollFree x ts = true) →
    ks.foldl (fun t k => pyReplace t (phPat k) (pyMarker k)) (renderG ts) =
      renderG (ts.map (maskTok ks)) := by
  intro ks
  induction ks with
  | nil =>
    intro ts h1 h2 h3
    clear h1 h2 h3
    rw [List.foldl_nil]
    congr 1
    have hid : List.map (maskTok []) ts = ts := by
      induction ts with
      | nil => rfl
      | cons t ts2 ih2 => rw [List.map_cons, maskTok_nil_id, ih2]
    exact hid.symm
  | cons k ks' ih =>
    intro ts hks hbf hcoll
    rcases hks k (List.mem_cons_self _ _) with ⟨hk1, hk2, hk3⟩
    rw [List.foldl_cons, mask_step k hk1 hk2 hk3 ts hbf (hcoll k (List.mem_cons_self _ _)),
      ih (ts.map (maskTok [k])) (fun x hx => hks x (List.mem_cons_of_mem k hx))
        (by rw [allBF_maskTok]; exact hbf)
        (fun x hx => by
          rw [escCollFree_maskTok]
          exact hcoll x (List.mem_cons_of_mem k hx)),
      List.map_map]
    congr 1
    exact List.map_congr_left (fun t _ => maskTok_comp k ks' t)

theorem normalB_singleton (t : GTok) : normalB [t] = true := by
  cases t <;> rfl

theorem normalB_pair (t1 t2 : GTok) (rest : List GTok) :
    normalB (t1 :: t2 :: rest) =
      if (isRunB t1 && isRunB t2) = true then false else normalB (t2 :: rest) := by
  cases t1 <;> cases t2 <;> simp [normalB, isRunB]

theorem isRunB_unmaskTok (S : List (List Char)) (t : GTok) :
    isRunB (unmaskTok S t) = isRunB t := by
  cases t with
  | mrk n => simp only [unmaskTok]; split <;> rfl
  | run r => rfl
  | esc b => rfl
  | ph n => rfl

theorem isRunB_maskTok (S : List (List Char)) (t : GTok) :
    isRunB (maskTok S t) = isRunB t := by
  cases t with
  | ph n => simp only [maskTok]; split <;> rfl
  | run r => rfl
  | esc b => rfl
  | mrk n => rfl

theorem normalB_map_of_isRunB {f : GTok → GTok} (hf : ∀ t, isRunB (f t) = isRunB t) :
    ∀ ts : List GTok, normalB (ts.map f) = normalB ts := by
  intro ts
  induction ts with
  | nil => rfl
  | cons t1 rest ih =>
    match rest with
    | [] =>
      rw [List.map_cons, List.map_nil, normalB_singleton, normalB_singleton]
    | t2 :: rest' =>
      rw [List.map_cons, List.map_cons, normalB_pair, normalB_pair, hf, hf, ← List.map_cons]
      rw [ih]


-- The restore loop and membership transfer across masking.

theorem unmaskTok_nil_id (t : GTok) : unmaskTok [] t = t := by
  cases t <;> simp [unmaskTok]

theorem unmask_pre_ph {S : List (List Char)} {ts : List GTok} {n : List Char}
    (h : GTok.ph n ∈ List.map (unmaskTok S) ts) :
    GTok.ph n ∈ ts ∨ GTok.mrk n ∈ ts := by
  rcases List.mem_map.mp h with ⟨t, ht, heq⟩
  cases t with
  | run r => simp [unmaskTok] at heq
  | esc b => simp [unmaskTok] at heq
  | ph m =>
    simp [unmaskTok] at heq
    exact Or.inl (heq ▸ ht)
  | mrk m =>
    by_cases hm : m ∈ S
    · simp [unmaskTok, hm] at heq
      exact Or.inr (heq ▸ ht)
    · simp [unmaskTok, hm] at heq

theorem unmask_pre_mrk {S : List (List Char)} {ts : List GTok} {m : List Char}
    (h : GTok.mrk m ∈ List.map (unmaskTok S) ts) :
    GTok.mrk m ∈ ts := by
  rcases List.mem_map.mp h with ⟨t, ht, heq⟩
  cases t with
  | run r => simp [unmaskTok] at heq
  | esc b => simp [unmaskTok] at heq
  | ph m' => simp [unmaskTok] at heq
  | mrk m' =>
    by_cases hm : m' ∈ S
    · simp [unmaskTok, hm] at heq
    · simp [unmaskTok, hm] at heq
      exact heq ▸ ht

theorem mask_pre_name {S : List (List Char)} {ts : List GTok} {n : List Char}
    (h : GTok.ph n ∈ List.map (maskTok S) ts ∨ GTok.mrk n ∈ List.map (maskTok S) ts) :
    GTok.ph n ∈ ts ∨ GTok.mrk n ∈ ts := by
  rcases h with h | h <;> rcases List.mem_map.mp h with ⟨t, ht, heq⟩
  · cases t with
    | run r => simp [maskTok] at heq
    | esc b => simp [maskTok] at heq
    | ph m =>
      by_cases hm : m ∈ S
      · simp [maskTok, hm] at heq
      · simp [maskTok, hm] at heq
        exact Or.inl (heq ▸ ht)
    | mrk m => simp [maskTok] at heq
  · cases t with
    | run r => simp [maskTok] at heq
    | esc b => simp [maskTok] at heq
    | ph m =>
      by_cases hm : m ∈ S
      · simp [maskTok, hm] at heq
        exact Or.inl (heq ▸ ht)
      · simp [maskTok, hm] at heq
    | mrk m =>
      simp [maskTok] at heq
      exact Or.inr (heq ▸ ht)

theorem mask_no_ph {S : List (List Char)} {ts : List GTok} {n : List Char}
    (hcov : ∀ x, GTok.ph x ∈ ts → x ∈ S)
    (h : GTok.ph n ∈ List.map (maskTok S) ts) : False := by
  rcases List.mem_map.mp h with ⟨t, ht, heq⟩
  cases t with
  | run r => simp [maskTok] at heq
  | esc b => simp [maskTok] at heq
  | ph m =>
    by_cases hm : m ∈ S
    · simp [maskTok, hm] at heq
    · exact hm (hcov m ht)
  | mrk m => simp [maskTok] at heq

/-- The whole restore loop. -/
theorem unmask_fold : ∀ (ks : List (List Char)) (ts : List GTok),
    allNoMarker ts = true → normalB ts = true →
    (∀ n, GTok.ph n ∈ ts ∨ GTok.mrk n ∈ ts → noMarkTail n = true) →
    (∀ m k, GTok.mrk m ∈ ts → k ∈ ks → m ≠ k → ¬(k <+: m) ∧ ¬(m <+: k)) →
    ks.foldl (fun t k => pyReplace t (pyMarker k) (phPat k)) (renderE ts) =
      renderE (ts.map (unmaskTok ks)) := by
  intro ks
  induction ks with
  | nil =>
    intro ts h1 h2 h3 h4
    clear h1 h2 h3 h4
    rw [List.foldl_nil]
    congr 1
    have hid : List.map (unmaskTok []) ts = ts := by
      induction ts with
      | nil => rfl
      | cons t ts2 ih2 => rw [List.map_cons, unmaskTok_nil_id, ih2]
    exact hid.symm
  | cons k ks' ih =>
    intro ts hnm hnorm hnt hpf
    rw [List.foldl_cons,
      unmask_step k ts hnm hnorm hnt
        (fun m hm hne => hpf m k hm (List.mem_cons_self _ _) hne),
      ih (ts.map (unmaskTok [k]))
        (by rw [allNoMarker_unmaskTok]; exact hnm)
        (by rw [normalB_map_of_isRunB (isRunB_unmaskTok [k])]; exact hnorm)
        (fun n hn => hnt n
          (hn.elim (fun hh => unmask_pre_ph hh) (fun hh => Or.inr (unmask_pre_mrk hh))))
        (fun m k2 hm hk2 hne =>
          hpf m k2 (unmask_pre_mrk hm) (List.mem_cons_of_mem k hk2) hne),
      List.map_map]
    congr 1
    exact List.map_congr_left (fun t _ => unmaskTok_comp k ks' t)


-- The markup scanner on a rendered template.

theorem nameChar_split {c : Char} (h : nameChar c = true) :
    c ≠ '{' ∧ c ≠ '}' ∧ c ≠ ':' ∧ c ≠ '!' ∧ c ≠ '.' ∧ c ≠ '[' := by
  simp only [nameChar, Bool.and_eq_true, bne_iff_ne, ne_eq] at h
  exact ⟨h.1.1.1.1.1, h.1.1.1.1.2, h.1.1.1.2, h.1.1.2, h.1.2, h.2⟩

theorem scanA_top_other {c : Char} (rest : List Char) (h1 : c ≠ '{') (h2 : c ≠ '}') :
    scanA (c :: rest) .top = scanA rest .top := by
  rw [scanA.eq_def]
  split
  case h_6 => rename_i a b g1 g2 hl hm; injection hl with e1 e2; rw [e2]
  all_goals simp_all

theorem scanA_top_open {c : Char} (rest : List Char) (h : c ≠ '{') :
    scanA ('{' :: c :: rest) .top = scanA (c :: rest) (.field [] false) := by
  rw [scanA.eq_def]
  split
  case h_6 => rename_i a b g1 g2 hl hm; injection hl with h1 h2; exact absurd h1.symm g1
  all_goals simp_all

theorem scanA_field_step {c : Char} (rest acc : List Char) (h : nameChar c = true) :
    scanA (c :: rest) (.field acc false) = scanA rest (.field (acc ++ [c]) false) := by
  simp only [nameChar, Bool.and_eq_true, bne_iff_ne, ne_eq] at h
  rw [scanA.eq_def]
  split <;> simp_all

theorem scanA_field_close (rest acc : List Char) :
    scanA ('}' :: rest) (.field acc false) = (fun ns => acc :: ns) <$> scanA rest .top := by
  rw [scanA.eq_def]
  split <;> simp_all
  rename_i cc rr aa hq1 hq2
  obtain ⟨e1, e2⟩ := hq1
  subst e2
  subst hq2
  rw [← e1]
  simp

theorem scanA_top_run : ∀ (r : List Char), bf r = true →
    ∀ rest, scanA (r ++ rest) .top = scanA rest .top := by
  intro r
  induction r with
  | nil => intro _ rest; rfl
  | cons c cs ih =>
    intro hbf rest
    obtain ⟨h1, h2, h3⟩ := bf_cons hbf
    rw [List.cons_append, scanA_top_other _ h1 h2, ih h3 rest]

theorem scanA_field_name : ∀ (n : List Char), n.all nameChar = true →
    ∀ (acc rest : List Char),
    scanA (n ++ '}' :: rest) (.field acc false) =
      (fun ns => (acc ++ n) :: ns) <$> scanA rest .top := by
  intro n
  induction n with
  | nil => intro _ acc rest; rw [List.nil_append, scanA_field_close, List.append_nil]
  | cons c cs ih =>
    intro hall acc rest
    simp only [List.all_cons, Bool.and_eq_true] at hall
    rw [List.cons_append, scanA_field_step _ _ hall.1, ih hall.2]
    simp

/-- Running `Formatter().parse` on the rendered template text yields exactly the
template's placeholder names, in order. -/
theorem scanNames_render : ∀ ts : List GTok, ts.all tokScanOk = true →
    scanA (renderG ts) .top = Except.ok (namesOf ts) := by
  intro ts
  induction ts with
  | nil => intro _; rfl
  | cons t ts' ih =>
    intro hall
    simp only [List.all_cons, Bool.and_eq_true] at hall
    obtain ⟨hh, ht⟩ := hall
    match t with
    | .run r =>
      rw [renderG_cons, show gtokStr (GTok.run r) = r from rfl,
        scanA_top_run r hh _, ih ht]
      rfl
    | .esc true =>
      rw [renderG_cons,
        show gtokStr (GTok.esc true) ++ renderG ts' =
          '{' :: ('{' :: renderG ts') from rfl,
        show scanA ('{' :: ('{' :: renderG ts')) ScanMode.top =
          scanA (renderG ts') ScanMode.top from rfl, ih ht]
      rfl
    | .esc false =>
      rw [renderG_cons,
        show gtokStr (GTok.esc false) ++ renderG ts' =
          '}' :: ('}' :: renderG ts') from rfl,
        show scanA ('}' :: ('}' :: renderG ts')) ScanMode.top =
          scanA (renderG ts') ScanMode.top from rfl, ih ht]
      rfl
    | .ph n =>
      rw [show tokScanOk (GTok.ph n) = (!n.isEmpty && n.all nameChar) from rfl,
        Bool.and_eq_true] at hh
      obtain ⟨hne, hnc⟩ := hh
      match n with
      | [] => simp at hne
      | c :: n' =>
        have hcn : nameChar c = true := by
          simp only [List.all_cons, Bool.and_eq_true] at hnc
          exact hnc.1
        rw [renderG_cons,
          show gtokStr (GTok.ph (c :: n')) ++ renderG ts' =
            '{' :: c :: (n' ++ ('}' :: renderG ts')) from by simp [gtokStr, phPat],
          scanA_top_open _ (nameChar_split hcn).1,
          show c :: (n' ++ ('}' :: renderG ts')) =
            (c :: n') ++ ('}' :: renderG ts') from rfl,
          scanA_field_name _ hnc _ _, ih ht]
        rfl
    | .mrk m => simp [tokScanOk] at hh


-- The modelled str.format on the escaped template.

theorem fmtA_top_other (kw : List (List Char × List Char)) {c : Char} (rest : List Char)
    (h1 : c ≠ '{') (h2 : c ≠ '}') :
    fmtA kw (c :: rest) .top = (fun t => c :: t) <$> fmtA kw rest .top := by
  rw [fmtA.eq_def]
  split
  case h_6 => rename_i a b g1 g2 hl hm; injection hl with e1 e2; rw [e1, e2]
  all_goals simp_all

theorem fmtA_top_open (kw : List (List Char × List Char)) {c : Char} (rest : List Char)
    (h : c ≠ '{') :
    fmtA kw ('{' :: c :: rest) .top = fmtA kw (c :: rest) (.field [] false) := by
  rw [fmtA.eq_def]
  split
  case h_6 => rename_i a b g1 g2 hl hm; injection hl with h1 h2; exact absurd h1.symm g1
  all_goals simp_all

theorem fmtA_field_step (kw : List (List Char × List Char)) {c : Char} (rest acc : List Char)
    (h : nameChar c = true) :
    fmtA kw (c :: rest) (.field acc false) = fmtA kw rest (.field (acc ++ [c]) false) := by
  simp only [nameChar, Bool.and_eq_true, bne_iff_ne, ne_eq] at h
  rw [fmtA.eq_def]
  split <;> simp_all

theorem fmtA_field_close (kw : List (List Char × List Char)) (rest acc : List Char) :
    fmtA kw ('}' :: rest) (.field acc false) =
      resolveField kw acc >>= fun v => (fun t => v ++ t) <$> fmtA kw rest .top := by
  rw [fmtA.eq_def]
  split <;> simp_all
  rename_i cc rr aa hq1 hq2
  obtain ⟨e1, e2⟩ := hq1
  subst e2
  subst hq2
  rw [← e1]
  simp

theorem fmtA_top_run (kw : List (List Char × List Char)) :
    ∀ (r : List Char), bf r = true → ∀ rest,
    fmtA kw (r ++ rest) .top = (fun t => r ++ t) <$> fmtA kw rest .top := by
  intro r
  induction r with
  | nil =>
    intro _ rest
    rw [List.nil_append]
    cases h : fmtA kw rest FMode.top <;> simp [Except.map]
  | cons c cs ih =>
    intro hbf rest
    obtain ⟨h1, h2, h3⟩ := bf_cons hbf
    rw [List.cons_append, fmtA_top_other kw _ h1 h2, ih h3 rest]
    cases h : fmtA kw rest FMode.top <;> simp [Except.map]

theorem fmtA_field_name (kw : List (List Char × List Char)) :
    ∀ (n : List Char), n.all nameChar = true → ∀ (acc rest : List Char),
    fmtA kw (n ++ '}' :: rest) (.field acc false) =
      resolveField kw (acc ++ n) >>= fun v => (fun t => v ++ t) <$> fmtA kw rest .top := by
  intro n
  induction n with
  | nil =>
    intro _ acc rest
    rw [List.nil_append, fmtA_field_close, List.append_nil]
  | cons c cs ih =>
    intro hall acc rest
    simp only [List.all_cons, Bool.and_eq_true] at hall
    rw [List.cons_append, fmtA_field_step kw _ _ hall.1, ih hall.2]
    simp

/-- Running `str.format` on the escaped rendering of a token sequence whose fields
all resolve: collapses the doubled braces and substitutes each field. -/
theorem fmtA_render (kw : List (List Char × List Char)) :
    ∀ ts : List GTok, ts.all tokScanOk = true →
    (∀ n, GTok.ph n ∈ ts → resolveField kw n = Except.ok (gtokOut kw (GTok.ph n))) →
    fmtA kw (renderE ts) .top = Except.ok (renderOut kw ts) := by
  intro ts
  induction ts with
  | nil => intro _ _; rfl
  | cons t ts' ih =>
    intro hall hres
    simp only [List.all_cons, Bool.and_eq_true] at hall
    obtain ⟨hh, ht⟩ := hall
    have hres' : ∀ n, GTok.ph n ∈ ts' → resolveField kw n = Except.ok (gtokOut kw (GTok.ph n)) :=
      fun n hn => hres n (List.mem_cons_of_mem t hn)
    match t with
    | .run r =>
      rw [renderE_cons, show gtokStrE (GTok.run r) = r from rfl,
        fmtA_top_run kw r hh _, ih ht hres']
      rfl
    | .esc true =>
      rw [renderE_cons,
        show gtokStrE (GTok.esc true) ++ renderE ts' =
          '{' :: ('{' :: ('{' :: ('{' :: renderE ts'))) from rfl,
        show fmtA kw ('{' :: ('{' :: ('{' :: ('{' :: renderE ts')))) FMode.top =
          (fun t => '{' :: t) <$> ((fun t => '{' :: t) <$> fmtA kw (renderE ts') FMode.top)
          from rfl, ih ht hres']
      rfl
    | .esc false =>
      rw [renderE_cons,
        show gtokStrE (GTok.esc false) ++ renderE ts' =
          '}' :: ('}' :: ('}' :: ('}' :: renderE ts'))) from rfl,
        show fmtA kw ('}' :: ('}' :: ('}' :: ('}' :: renderE ts')))) FMode.top =
          (fun t => '}' :: t) <$> ((fun t => '}' :: t) <$> fmtA kw (renderE ts') FMode.top)
          from rfl, ih ht hres']
      rfl
    | .ph n =>
      rw [show tokScanOk (GTok.ph n) = (!n.isEmpty && n.all nameChar) from rfl,
        Bool.and_eq_true] at hh
      obtain ⟨hne, hnc⟩ := hh
      match n with
      | [] => simp at hne
      | c :: n' =>
        have hcn : nameChar c = true := by
          simp only [List.all_cons, Bool.and_eq_true] at hnc
          exact hnc.1
        rw [renderE_cons,
          show gtokStrE (GTok.ph (c :: n')) ++ renderE ts' =
            '{' :: c :: (n' ++ ('}' :: renderE ts')) from by simp [gtokStrE, phPat],
          fmtA_top_open kw _ (nameChar_split hcn).1,
          show c :: (n' ++ ('}' :: renderE ts')) =
            (c :: n') ++ ('}' :: renderE ts') from rfl,
          fmtA_field_name kw _ hnc _ _, ih ht hres',
          show ([] : List Char) ++ (c :: n') = c :: n' from rfl,
          hres (c :: n') (List.mem_cons_self _ _)]
        rfl
    | .mrk m => simp [tokScanOk] at hh


-- Field resolution and membership lemmas.

theorem takeWhile_all {p : Char → Bool} : ∀ l : List Char, l.all p = true →
    l.takeWhile p = l := by
  intro l
  induction l with
  | nil => intro _; rfl
  | cons c cs ih =>
    intro h
    simp only [List.all_cons, Bool.and_eq_true] at h
    rw [List.takeWhile_cons]
    simp [h.1, ih h.2]

theorem validName_parts {n : List Char} (h : validName n = true) :
    n.isEmpty = false ∧ n.all nameChar = true ∧ isAllDigits n = false := by
  simp only [validName, Bool.and_eq_true, Bool.not_eq_true'] at h
  exact ⟨h.1.1, h.1.2, h.2⟩

theorem bf_of_nameChar : ∀ n : List Char, n.all nameChar = true → bf n = true := by
  intro n h
  unfold bf
  rw [List.all_eq_true] at h ⊢
  intro c hc
  obtain ⟨h1, h2, _⟩ := nameChar_split (h c hc)
  simp [h1, h2]

theorem tokScanOk_of_tokOkB : ∀ t : GTok, tokOkB t = true → tokScanOk t = true := by
  intro t h
  match t with
  | .run r =>
    simp only [tokOkB, Bool.and_eq_true] at h
    exact h.1.2
  | .esc b => rfl
  | .ph n =>
    simp only [tokOkB, Bool.and_eq_true] at h
    obtain ⟨p1, p2, p3⟩ := validName_parts h.1.1
    simp only [tokScanOk, Bool.and_eq_true]
    exact ⟨by simp [p1], p2⟩
  | .mrk m => simp [tokOkB] at h

theorem tokBF_of_tokOkB : ∀ t : GTok, tokOkB t = true → tokBF t = true := by
  intro t h
  match t with
  | .run r =>
    simp only [tokOkB, Bool.and_eq_true] at h
    exact h.1.2
  | .esc b => rfl
  | .ph n =>
    simp only [tokOkB, Bool.and_eq_true] at h
    exact bf_of_nameChar n (validName_parts h.1.1).2.1
  | .mrk m => simp [tokOkB] at h

theorem tokNM_of_tokOkB : ∀ t : GTok, tokOkB t = true → tokNM t = true := by
  intro t h
  match t with
  | .run r =>
    simp only [tokOkB, Bool.and_eq_true] at h
    exact h.2
  | .esc b => rfl
  | .ph n =>
    simp only [tokOkB, Bool.and_eq_true] at h
    exact h.1.2
  | .mrk m => simp [tokOkB] at h

theorem all_of_all_imp {p q : GTok → Bool} (hpq : ∀ t, p t = true → q t = true) :
    ∀ ts : List GTok, ts.all p = true → ts.all q = true := by
  intro ts h
  rw [List.all_eq_true] at h ⊢
  exact fun t ht => hpq t (h t ht)

theorem lookupA_map_self (g : List Char → List Char) :
    ∀ (phs : List (List Char)) (k : List Char), k ∈ phs →
    lookupA (phs.map (fun x => (x, g x))) k = some (g k) := by
  intro phs
  induction phs with
  | nil => intro k hk; simp at hk
  | cons p ps ih =>
    intro k hk
    rw [List.map_cons]
    by_cases hp : p = k
    · subst hp; simp [lookupA]
    · rw [show lookupA ((p, g p) :: List.map (fun x => (x, g x)) ps) k =
        lookupA (List.map (fun x => (x, g x)) ps) k from by simp [lookupA, hp]]
      rcases List.mem_cons.mp hk with h | h
      · exact absurd h.symm hp
      · exact ih k h

theorem lookupA_mem : ∀ (kw : List (List Char × List Char)) (k v : List Char),
    lookupA kw k = some v → (k, v) ∈ kw := by
  intro kw
  induction kw with
  | nil => intro k v h; simp [lookupA] at h
  | cons p ps ih =>
    obtain ⟨a, b⟩ := p
    intro k v h
    by_cases he : a = k
    · subst he
      simp [lookupA] at h
      rw [h]
      exact List.mem_cons_self _ _
    · rw [show lookupA ((a, b) :: ps) k = lookupA ps k from by simp [lookupA, he]] at h
      exact List.mem_cons_of_mem _ (ih k v h)

theorem resolveField_name {kw : List (List Char × List Char)} {n v : List Char}
    (hn : validName n = true) (hl : lookupA kw n = some v) :
    resolveField kw n = Except.ok v := by
  obtain ⟨p1, p2, p3⟩ := validName_parts hn
  have hkey : splitFieldKey n = n := by
    unfold splitFieldKey
    apply takeWhile_all
    rw [List.all_eq_true] at p2 ⊢
    intro c hc
    obtain ⟨_, _, _, _, h5, h6⟩ := nameChar_split (p2 c hc)
    simp [h5, h6]
  have hne : n ≠ [] := by
    cases n
    · simp at p1
    · simp
  simp [resolveField, hkey, hne, p3, hl]

theorem mem_namesOf : ∀ (ts : List GTok) (n : List Char),
    n ∈ namesOf ts ↔ GTok.ph n ∈ ts := by
  intro ts n
  induction ts with
  | nil => simp [namesOf]
  | cons t ts' ih =>
    match t with
    | .run r =>
      rw [show namesOf (GTok.run r :: ts') = namesOf ts' from rfl, ih]
      simp
    | .esc b =>
      rw [show namesOf (GTok.esc b :: ts') = namesOf ts' from rfl, ih]
      simp
    | .mrk m =>
      rw [show namesOf (GTok.mrk m :: ts') = namesOf ts' from rfl, ih]
      simp
    | .ph m =>
      rw [show namesOf (GTok.ph m :: ts') = m :: namesOf ts' from rfl]
      simp [ih]

theorem mem_dedupFirstAux_sub : ∀ (l seen : List (List Char)) (x : List Char),
    x ∈ dedupFirstAux seen l → x ∈ l := by
  intro l
  induction l with
  | nil => intro seen x h; simp [dedupFirstAux] at h
  | cons y ys ih =>
    intro seen x h
    by_cases hy : y ∈ seen
    · rw [show dedupFirstAux seen (y :: ys) = dedupFirstAux seen ys from by
        simp [dedupFirstAux, hy]] at h
      exact List.mem_cons_of_mem y (ih seen x h)
    · rw [show dedupFirstAux seen (y :: ys) = y :: dedupFirstAux (y :: seen) ys from by
        simp [dedupFirstAux, hy]] at h
      rcases List.mem_cons.mp h with h | h
      · exact h ▸ List.mem_cons_self _ _
      · exact List.mem_cons_of_mem y (ih (y :: seen) x h)

theorem mem_dedupFirstAux_sup : ∀ (l seen : List (List Char)) (x : List Char),
    x ∈ l → x ∈ seen ∨ x ∈ dedupFirstAux seen l := by
  intro l
  induction l with
  | nil => intro seen x h; simp at h
  | cons y ys ih =>
    intro seen x h
    by_cases hy : y ∈ seen
    · rw [show dedupFirstAux seen (y :: ys) = dedupFirstAux seen ys from by
        simp [dedupFirstAux, hy]]
      rcases List.mem_cons.mp h with h | h
      · exact Or.inl (h ▸ hy)
      · exact ih seen x h
    · rw [show dedupFirstAux seen (y :: ys) = y :: dedupFirstAux (y :: seen) ys from by
        simp [dedupFirstAux, hy]]
      rcases List.mem_cons.mp h with h | h
      · exact Or.inr (h ▸ List.mem_cons_self _ _)
      · rcases ih (y :: seen) x h with hs | hd
        · rcases List.mem_cons.mp hs with h2 | h2
          · exact Or.inr (h2 ▸ List.mem_cons_self _ _)
          · exact Or.inl h2
        · exact Or.inr (List.mem_cons_of_mem y hd)

theorem mem_dedupFirst (l : List (List Char)) (x : List Char) :
    x ∈ dedupFirst l ↔ x ∈ l := by
  constructor
  · exact mem_dedupFirstAux_sub l [] x
  · intro h
    rcases mem_dedupFirstAux_sup l [] x h with hs | hd
    · simp at hs
    · exact hd

theorem prefixFreeB_spec {ns : List (List Char)} (h : prefixFreeB ns = true) :
    ∀ m k, m ∈ ns → k ∈ ns → m ≠ k → ¬(k <+: m) ∧ ¬(m <+: k) := by
  intro m k hm hk hne
  unfold prefixFreeB at h
  rw [List.all_eq_true] at h
  have h2 := h m hm
  rw [List.all_eq_true] at h2
  have h3 := h2 k hk
  simp only [Bool.or_eq_true, Bool.and_eq_true, Bool.not_eq_true', decide_eq_true_eq] at h3
  rcases h3 with h3 | h3
  · exact absurd h3 hne
  · refine ⟨fun hp => ?_, fun hp => ?_⟩
    · have hb : k.isPrefixOf m = true := List.isPrefixOf_iff_prefix.mpr hp
      rw [h3.2] at hb
      simp at hb
    · have hb : m.isPrefixOf k = true := List.isPrefixOf_iff_prefix.mpr hp
      rw [h3.1] at hb
      simp at hb

theorem no_mrk_of_all_tokOkB {ts : List GTok} (h : ts.all tokOkB = true) :
    ∀ m, GTok.mrk m ∈ ts → False := by
  intro m hm
  have h2 := List.all_eq_true.mp h _ hm
  simp [tokOkB] at h2

theorem unmask_mask_id {ts : List GTok} (h : ts.all tokOkB = true)
    (ks : List (List Char)) :
    (ts.map (maskTok ks)).map (unmaskTok ks) = ts := by
  rw [List.map_map]
  have hcg : ∀ t ∈ ts, (unmaskTok ks ∘ maskTok ks) t = id t := by
    intro t ht
    have hok := List.all_eq_true.mp h t ht
    match t with
    | .run r => rfl
    | .esc b => rfl
    | .ph n =>
      show unmaskTok ks (maskTok ks (GTok.ph n)) = GTok.ph n
      by_cases hn : n ∈ ks
      · simp [maskTok, unmaskTok, hn]
      · simp [maskTok, unmaskTok, hn]
    | .mrk m => simp [tokOkB] at hok
  rw [List.map_congr_left hcg, List.map_id]

theorem renderOut_cons (kw : List (List Char × List Char)) (t : GTok) (ts : List GTok) :
    renderOut kw (t :: ts) = gtokOut kw t ++ renderOut kw ts := rfl

theorem renderOut_congr (kw1 kw2 : List (List Char × List Char)) :
    ∀ ts : List GTok,
    (∀ n, GTok.ph n ∈ ts → gtokOut kw1 (GTok.ph n) = gtokOut kw2 (GTok.ph n)) →
    renderOut kw1 ts = renderOut kw2 ts := by
  intro ts
  induction ts with
  | nil => intro _; rfl
  | cons t ts' ih =>
    intro h
    have h' := fun n hn => h n (List.mem_cons_of_mem t hn)
    match t with
    | .run r => rw [renderOut_cons, renderOut_cons, ih h']; rfl
    | .esc b => rw [renderOut_cons, renderOut_cons, ih h']; cases b <;> rfl
    | .mrk m => rw [renderOut_cons, renderOut_cons, ih h']; rfl
    | .ph n => rw [renderOut_cons, renderOut_cons, ih h', h n (List.mem_cons_self _ _)]

theorem renderOut_substTok (kw : List (List Char × List Char)) :
    ∀ ts : List GTok, renderOut kw ts = renderG (ts.map (substTok kw)) := by
  intro ts
  induction ts with
  | nil => rfl
  | cons t ts' ih =>
    rw [List.map_cons, renderOut_cons, renderG_cons, ih]
    congr 1
    match t with
    | .run r => rfl
    | .esc b => cases b <;> rfl
    | .ph n =>
      show gtokOut kw (GTok.ph n) = gtokStr (substTok kw (GTok.ph n))
      simp only [gtokOut, substTok]
      cases lookupA kw n <;> rfl
    | .mrk m => rfl

theorem namesOf_substTok (kw : List (List Char × List Char)) :
    ∀ ts : List GTok,
    namesOf (ts.map (substTok kw)) =
      (namesOf ts).filter (fun n => (lookupA kw n).isNone) := by
  intro ts
  induction ts with
  | nil => rfl
  | cons t ts' ih =>
    rw [List.map_cons]
    match t with
    | .run r =>
      rw [show substTok kw (GTok.run r) = GTok.run r from rfl,
        show namesOf (GTok.run r :: List.map (substTok kw) ts') =
          namesOf (List.map (substTok kw) ts') from rfl, ih]
      rfl
    | .esc b =>
      rw [show substTok kw (GTok.esc b) = GTok.esc b from rfl,
        show namesOf (GTok.esc b :: List.map (substTok kw) ts') =
          namesOf (List.map (substTok kw) ts') from rfl, ih]
      rfl
    | .mrk m =>
      rw [show substTok kw (GTok.mrk m) = GTok.mrk m from rfl,
        show namesOf (GTok.mrk m :: List.map (substTok kw) ts') =
          namesOf (List.map (substTok kw) ts') from rfl, ih]
      rfl
    | .ph n =>
      cases hl : lookupA kw n with
      | some v =>
        rw [show substTok kw (GTok.ph n) = GTok.run v from by simp [substTok, hl],
          show namesOf (GTok.run v :: List.map (substTok kw) ts') =
            namesOf (List.map (substTok kw) ts') from rfl, ih,
          show namesOf (GTok.ph n :: ts') = n :: namesOf ts' from rfl,
          List.filter_cons]
        simp [hl]
      | none =>
        rw [show substTok kw (GTok.ph n) = GTok.ph n from by simp [substTok, hl],
          show namesOf (GTok.ph n :: List.map (substTok kw) ts') =
            n :: namesOf (List.map (substTok kw) ts') from rfl, ih,
          show namesOf (GTok.ph n :: ts') = n :: namesOf ts' from rfl,
          List.filter_cons]
        simp [hl]


-- The end-to-end evaluation of partial_format on a well-behaved template.

/-- Evaluating `partial_format` on the rendering of a well-behaved template: every phase
of the source algorithm is tracked at the token level, giving the intended
output (supplied placeholders substituted, the rest intact, braces single). -/
theorem partial_format_wf_eq (ts : List GTok) (kwargs : List (List Char × List Char))
    (hwf : wfTpl ts = true) :
    partial_format (renderG ts) kwargs = Except.ok (renderOut kwargs ts) := by
  have hwf2 := hwf
  unfold wfTpl at hwf2
  simp only [Bool.and_eq_true] at hwf2
  obtain ⟨⟨⟨hok, hnorm⟩, hpf⟩, hcoll⟩ := hwf2
  have hScan : ts.all tokScanOk = true := all_of_all_imp tokScanOk_of_tokOkB ts hok
  have hBF : allBF ts = true := all_of_all_imp tokBF_of_tokOkB ts hok
  have hNM : allNoMarker ts = true := all_of_all_imp tokNM_of_tokOkB ts hok
  have hmrk : ∀ m, GTok.mrk m ∈ ts → False := no_mrk_of_all_tokOkB hok
  have hele : ∀ x ∈ dedupFirst (namesOf ts), x ∈ namesOf ts :=
    fun x hx => (mem_dedupFirst _ x).mp hx
  have hksOk : ∀ x ∈ dedupFirst (namesOf ts),
      bf x = true ∧ x ≠ [] ∧ hasSub tempMark x = false := by
    intro x hx
    have hphx : GTok.ph x ∈ ts := (mem_namesOf ts x).mp (hele x hx)
    have hokx := List.all_eq_true.mp hok _ hphx
    simp only [tokOkB, Bool.and_eq_true] at hokx
    obtain ⟨⟨hv, hnm2⟩, hnt2⟩ := hokx
    obtain ⟨p1, p2, p3⟩ := validName_parts hv
    refine ⟨bf_of_nameChar x p2, ?_, hasSub_false_of_noMarker hnm2⟩
    cases x
    · simp at p1
    · simp
  have hcoll2 : ∀ x ∈ dedupFirst (namesOf ts), escCollFree x ts = true :=
    fun x hx => List.all_eq_true.mp hcoll _ (hele x hx)
  have h1 : scanNames (renderG ts) = Except.ok (namesOf ts) := scanNames_render ts hScan
  have h2 := mask_fold (dedupFirst (namesOf ts)) ts hksOk hBF hcoll2
  have h3 := escape_masked (ts.map (maskTok (dedupFirst (namesOf ts))))
      (by rw [allBF_maskTok]; exact hBF)
      (fun n hn => mask_no_ph
        (fun x hx => (mem_dedupFirst _ x).mpr ((mem_namesOf ts x).mpr hx)) hn)
  have hnamewf : ∀ n, GTok.ph n ∈ ts ∨ GTok.mrk n ∈ ts → noMarkTail n = true := by
    intro n hn
    rcases hn with hph | hmk
    · have hokx := List.all_eq_true.mp hok _ hph
      simp only [tokOkB, Bool.and_eq_true] at hokx
      exact hokx.2
    · exact absurd hmk (hmrk n)
  have h4 := unmask_fold (dedupFirst (namesOf ts)) (ts.map (maskTok (dedupFirst (namesOf ts))))
      (by rw [allNoMarker_maskTok]; exact hNM)
      (by rw [normalB_map_of_isRunB (isRunB_maskTok _)]; exact hnorm)
      (fun n hn => hnamewf n (mask_pre_name hn))
      (fun m k hm hk hne => by
        have hpre : GTok.ph m ∈ ts ∨ GTok.mrk m ∈ ts := mask_pre_name (Or.inr hm)
        have hmm : m ∈ namesOf ts := by
          rcases hpre with hph | hmk
          · exact (mem_namesOf ts m).mpr hph
          · exact absurd hmk (hmrk m)
        exact prefixFreeB_spec hpf m k hmm (hele k hk) hne)
  have h5 : (ts.map (maskTok (dedupFirst (namesOf ts)))).map
      (unmaskTok (dedupFirst (namesOf ts))) = ts := unmask_mask_id hok _
  have hres : ∀ n, GTok.ph n ∈ ts →
      resolveField
        ((dedupFirst (namesOf ts)).map (fun k => (k, (lookupA kwargs k).getD (phPat k)))) n =
      Except.ok (gtokOut
        ((dedupFirst (namesOf ts)).map (fun k => (k, (lookupA kwargs k).getD (phPat k))))
        (GTok.ph n)) := by
    intro n hn
    have hokx := List.all_eq_true.mp hok _ hn
    simp only [tokOkB, Bool.and_eq_true] at hokx
    have hvn : validName n = true := hokx.1.1
    have hmem : n ∈ dedupFirst (namesOf ts) :=
      (mem_dedupFirst _ n).mpr ((mem_namesOf ts n).mpr hn)
    have hlk := lookupA_map_self (fun k => (lookupA kwargs k).getD (phPat k)) _ n hmem
    rw [resolveField_name hvn hlk]
    simp [gtokOut, hlk]
  have h6 := fmtA_render
      ((dedupFirst (namesOf ts)).map (fun k => (k, (lookupA kwargs k).getD (phPat k))))
      ts hScan hres
  have h7 : renderOut
      ((dedupFirst (namesOf ts)).map (fun k => (k, (lookupA kwargs k).getD (phPat k)))) ts =
      renderOut kwargs ts := by
    apply renderOut_congr
    intro n hn
    have hmem : n ∈ dedupFirst (namesOf ts) :=
      (mem_dedupFirst _ n).mpr ((mem_namesOf ts n).mpr hn)
    have hlk := lookupA_map_self (fun k => (lookupA kwargs k).getD (phPat k)) _ n hmem
    simp only [gtokOut, hlk]
    cases hx : lookupA kwargs n <;> simp
  unfold partial_format
  rw [h1]
  show pyFormat
      ((dedupFirst (namesOf ts)).foldl (fun t k => pyReplace t (pyMarker k) (phPat k))
        (pyReplace
          (pyReplace
            ((dedupFirst (namesOf ts)).foldl
              (fun t k => pyReplace t (phPat k) (pyMarker k)) (renderG ts))
            ['{'] ['{', '{'])
          ['}'] ['}', '}']))
      ((dedupFirst (namesOf ts)).map (fun k => (k, (lookupA kwargs k).getD (phPat k)))) =
    Except.ok (renderOut kwargs ts)
  rw [h2, h3, h4, h5]
  show fmtA
      ((dedupFirst (namesOf ts)).map (fun k => (k, (lookupA kwargs k).getD (phPat k))))
      (renderE ts) FMode.top = Except.ok (renderOut kwargs ts)
  rw [h6, h7]


-- Claims C1 and C9 over the well-behaved template fragment.

/-- C1 (amended): over well-behaved templates — placeholder names are plain
non-numeric keyword names free of the internal marker text and its prefixes,
the name set is prefix-free, and no name collides with escaped-brace literal
text — `partial_format` substitutes exactly the supplied placeholders, leaves
every unsupplied placeholder literally as `\x7bname\x7d`, and preserves
escaped literal braces exactly as they appear in the template; no missing-key
failure is raised.  (The unrestricted claim is refuted by
`partial_format_missing_key_cex`.) -/
theorem partial_format_wf_spec (ts : List GTok) (kwargs : List (List Char × List Char))
    (hwf : wfTpl ts = true) :
    partial_format (renderG ts) kwargs = Except.ok (renderOut kwargs ts) :=
  partial_format_wf_eq ts kwargs hwf

theorem partial_format_wf_spec_witness :
    wfTpl [GTok.run ['H','i',' '], GTok.ph ['a'], GTok.esc true, GTok.run ['x'],
        GTok.esc false, GTok.ph ['q','y']] = true ∧
    partial_format
        (renderG [GTok.run ['H','i',' '], GTok.ph ['a'], GTok.esc true, GTok.run ['x'],
          GTok.esc false, GTok.ph ['q','y']])
        [(['a'], ['V','1'])] =
      Except.ok (renderOut [(['a'], ['V','1'])]
        [GTok.run ['H','i',' '], GTok.ph ['a'], GTok.esc true, GTok.run ['x'],
          GTok.esc false, GTok.ph ['q','y']]) :=
  ⟨by decide,
    partial_format_wf_spec
      [GTok.run ['H','i',' '], GTok.ph ['a'], GTok.esc true, GTok.run ['x'],
        GTok.esc false, GTok.ph ['q','y']]
      [(['a'], ['V','1'])] (by decide)⟩

/-- C9 (amended): over well-behaved templates and brace-free substitution
values, `partial_format` succeeds and re-parsing its output's placeholder
syntax yields exactly the template's placeholder names that were not
supplied, in template order.  (The unrestricted claim is refuted by
`partial_format_roundtrip_cex`.) -/
theorem partial_format_unresolved_names (ts : List GTok)
    (kwargs : List (List Char × List Char))
    (hwf : wfTpl ts = true)
    (hvals : ∀ p ∈ kwargs, bf p.2 = true) :
    ∃ out, partial_format (renderG ts) kwargs = Except.ok out ∧
      scanNames out =
        Except.ok ((namesOf ts).filter (fun n => (lookupA kwargs n).isNone)) := by
  refine ⟨renderOut kwargs ts, partial_format_wf_eq ts kwargs hwf, ?_⟩
  have hok : ts.all tokOkB = true := by
    unfold wfTpl at hwf
    simp only [Bool.and_eq_true] at hwf
    exact hwf.1.1.1
  have hscan2 : (ts.map (substTok kwargs)).all tokScanOk = true := by
    rw [List.all_eq_true]
    intro t2 ht2
    rcases List.mem_map.mp ht2 with ⟨t, ht, rfl⟩
    have hokt := List.all_eq_true.mp hok t ht
    match t with
    | .run r => exact tokScanOk_of_tokOkB _ hokt
    | .esc b => rfl
    | .ph n =>
      cases hl : lookupA kwargs n with
      | some v =>
        rw [show substTok kwargs (GTok.ph n) = GTok.run v from by simp [substTok, hl]]
        exact hvals (n, v) (lookupA_mem kwargs n v hl)
      | none =>
        rw [show substTok kwargs (GTok.ph n) = GTok.ph n from by simp [substTok, hl]]
        exact tokScanOk_of_tokOkB _ hokt
    | .mrk m => simp [tokOkB] at hokt
  rw [renderOut_substTok]
  show scanA (renderG (ts.map (substTok kwargs))) ScanMode.top = _
  rw [scanNames_render _ hscan2, namesOf_substTok]

theorem partial_format_unresolved_names_witness :
    wfTpl [GTok.run ['H','i',' '], GTok.ph ['a'], GTok.run [' '], GTok.ph ['q','y']] = true ∧
    (∀ p ∈ [((['a'] : List Char), (['V','1'] : List Char))], bf p.2 = true) ∧
    (∃ out, partial_format
        (renderG [GTok.run ['H','i',' '], GTok.ph ['a'], GTok.run [' '], GTok.ph ['q','y']])
        [(['a'], ['V','1'])] = Except.ok out ∧
      scanNames out =
        Except.ok ((namesOf [GTok.run ['H','i',' '], GTok.ph ['a'], GTok.run [' '],
            GTok.ph ['q','y']]).filter
          (fun n => (lookupA [(['a'], ['V','1'])] n).isNone))) :=
  ⟨by decide, by decide,
    partial_format_unresolved_names
      [GTok.run ['H','i',' '], GTok.ph ['a'], GTok.run [' '], GTok.ph ['q','y']]
      [(['a'], ['V','1'])] (by decide) (by decide)⟩
